import Mathlib

set_option maxHeartbeats 1000000

/-!
Verification development for the `format_breaker` binary-parsing library.

The definitions below are a shallow embedding of the Python sources
(`src/formatbreaker/bitwisebytes.py`, `util.py`, `datasource.py`, `core.py`).
Bytes are modelled as `List Nat` (each entry `< 256`), bit streams as the
`BitwiseBytes` view structure, fallible Python code as `Except Err`, and the
mutable engine objects (`DataBuffer`, `DataManager`, `Context`) as explicit
state threaded through the functions.  Python `//` and `%` agree with `Nat`
division and modulus on the nonnegative values handled here.
-/

/-- The kinds of Python exceptions the embedded code can raise. -/
inductive Err where
  | fbError
  | fbNoData
  | indexError
  | typeError
  | valueError
  | runtimeError
  | assertionError
  | keyError
  | notImplementedError
deriving DecidableEq, Repr

/-- Mirrors `issubclass(e_type, FBError)`: `FBNoDataError` is a subclass of
`FBError`; every other exception kind is unrelated to `FBError`. -/
def Err.isFB : Err → Bool
  | .fbError => true
  | .fbNoData => true
  | _ => false

/-- A dynamically-typed Python argument that is either an `int` or a `str`
(the two types accepted by `Repeat`/`Array` quantities). -/
inductive PyVal where
  | int (n : Int)
  | str (s : String)
deriving DecidableEq, Repr

/-- Embeds `util.validate_address_or_length`: `TypeError` when the argument is
not an `int`, `IndexError` when it is below `amin` or above `amax`. -/
def validate_address_or_length (address : PyVal) (amin : Int := 0)
    (amax : Option Int := none) : Except Err Unit := do
  match address with
  | .str _ => throw .typeError
  | .int n =>
    if n < amin then throw .indexError
    if let some mx := amax then
      if n > mx then throw .indexError
    return ()

/-- Embeds `util.bitlen` on a `bytes` value: `len(obj) * 8`. -/
def bitlen (obj : List Nat) : Nat := obj.length * 8

/-- Embeds `util.uptobyte`, `-(bits // -8)`, the number of whole bytes needed
to contain `bits` bits; on nonnegative input this is `(bits + 7) / 8`. -/
def uptobyte (bits : Nat) : Nat := (bits + 7) / 8

/-- Embeds `util.downtobyte`, `bits // 8`. -/
def downtobyte (bits : Nat) : Nat := bits / 8

/-- Python list slicing `l[a:b]` for `0 ≤ a ≤ b` (the only case the embedded
code reaches). -/
def pySlice (l : List Nat) (a b : Nat) : List Nat := (l.drop a).take (b - a)

/-- Python `hex(n)` for a nonnegative int: `"0x"` followed by lowercase hex
digits. -/
def pyHex (n : Nat) : String := "0x" ++ (Nat.toDigits 16 n).asString

/-- The state of a `bitwisebytes.BitwiseBytes` object: a bit range over an
underlying byte string, delimited by byte/bit start and stop coordinates. -/
structure BitwiseBytes where
  data : List Nat
  startByte : Nat
  startBit : Nat
  stopByte : Nat
  stopBit : Nat
  length : Nat
deriving DecidableEq, Repr

/-- Embeds `BitwiseBytes.__init__` for a `bytes` source (`base_bit = 0`,
`base_byte = 0`), with arguments already validated (`start ≤ stop ≤ bitlen`).
-/
def bwbOfBytes (source : List Nat) (startB stopB : Nat) : BitwiseBytes :=
  { data := source
    length := stopB - startB
    startByte := startB / 8
    startBit := startB % 8
    stopByte := stopB / 8
    stopBit := stopB % 8 }

/-- Embeds `BitwiseBytes.__init__` for a `BitwiseBytes` source: offsets are
rebased on the source view's `start_byte`/`start_bit`. -/
def bwbOfBwb (source : BitwiseBytes) (startB stopB : Nat) : BitwiseBytes :=
  { data := source.data
    length := stopB - startB
    startByte := source.startByte + (source.startBit + startB) / 8
    startBit := (source.startBit + startB) % 8
    stopByte := source.startByte + (source.startBit + stopB) / 8
    stopBit := (source.startBit + stopB) % 8 }

/-- Embeds the `int` branch of `BitwiseBytes.__getitem__` for an in-range
nonnegative index (`item % self._length` is the identity there):
bit `(0x80 >> bit_ind)` of byte `byte_ind`. -/
def BitwiseBytes.getBit (self : BitwiseBytes) (item : Nat) : Bool :=
  let item := item % self.length
  let bitInd := (self.startBit + item % 8) % 8
  let byteInd := self.startByte + (item + self.startBit) / 8
  ((0x80 >>> bitInd) &&& self.data.getD byteInd 0) != 0

/-- Embeds the `int` branch of `BitwiseBytes.__getitem__` including the
`IndexError` bound check (nonnegative indices). -/
def BitwiseBytes.getItemInt (self : BitwiseBytes) (item : Nat) :
    Except Err Bool :=
  if item ≥ self.length then .error .indexError
  else .ok (self.getBit item)

/-- Embeds the `slice` branch of `BitwiseBytes.__getitem__` after
`item.indices` clamping, for a step-1 slice `0 ≤ start ≤ stop ≤ length`:
the source constructs `BitwiseBytes(self._data, start, stop)` from the raw
underlying bytes, not from the view. -/
def BitwiseBytes.getItemSlice (self : BitwiseBytes) (start stop : Nat) :
    BitwiseBytes :=
  bwbOfBytes self.data start stop

/-- Embeds `BitwiseBytes.__bytes__`. -/
def BitwiseBytes.toBytes (self : BitwiseBytes) : List Nat :=
  if self.length = 0 then []
  else
    let lastByteAddr := if self.stopBit = 0 then self.stopByte - 1
                        else self.stopByte
    let singleByte := lastByteAddr = self.startByte
    let multiByte := lastByteAddr > self.startByte + 1
    let stopShift := (8 - self.stopBit) % 8
    if singleByte then
      [(self.data.getD self.startByte 0 &&& (0xFF >>> self.startBit)) >>>
        stopShift]
    else
      let firstByte := [self.data.getD self.startByte 0 &&&
        (0xFF >>> self.startBit)]
      let lastByte := [self.data.getD lastByteAddr 0 &&& (0xFF <<< stopShift)]
      let midBytes := if multiByte then
          pySlice self.data (self.startByte + 1) lastByteAddr
        else []
      let d := firstByte ++ midBytes ++ lastByte
      if self.stopBit = 0 then d
      else
        let shiftData := d.map (fun b => b <<< (8 - stopShift))
        let firstPart := shiftData.dropLast.map (fun b => b &&& 0xFF)
        let secondPart := (shiftData.drop 1).map (fun b => b >>> 8)
        List.zipWith Nat.add firstPart secondPart

/-- C2 helper: the spec's claimed materialization, written from the claim's
words: the first `ceil(L/8)` bytes of `b` with the low
`(8 - L mod 8) mod 8` bits of the last output byte zeroed. -/
def c2Claimed (b : List Nat) (L : Nat) : List Nat :=
  let n := uptobyte L
  let s := (8 - L % 8) % 8
  (List.range n).map (fun i =>
    if i + 1 = n then b.getD i 0 &&& (0xFF <<< s) else b.getD i 0)

/-! ## Context (`core.Context`, a `collections.ChainMap` subclass)

A `Context` is a stack of Python dicts (`maps`), newest first.  Dicts are
modelled as association lists with unique keys, insertion order preserved;
`dictSet` mirrors Python dict assignment (overwrite in place, or append) and
`dictUpdate` mirrors `dict.update`. -/

/-- One layer of a Context: a Python dict from string keys to values. -/
abbrev Layer (α : Type) := List (String × α)

/-- The `maps` list of a ChainMap, newest layer first. -/
abbrev CtxMaps (α : Type) := List (Layer α)

/-- Python `key in dict`. -/
def dictContains {α : Type} (d : Layer α) (k : String) : Bool :=
  d.any (fun kv => kv.1 = k)

/-- Python `dict[key]` as an option. -/
def dictGet {α : Type} (d : Layer α) (k : String) : Option α :=
  (d.find? (fun kv => kv.1 = k)).map Prod.snd

/-- Python `dict[key] = value`: overwrite in place, else append. -/
def dictSet {α : Type} (d : Layer α) (k : String) (v : α) : Layer α :=
  if dictContains d k then d.map (fun kv => if kv.1 = k then (k, v) else kv)
  else d ++ [(k, v)]

/-- Python `d.update(other)`: assign every entry of `other` into `d` in
order, overwriting colliding keys. -/
def dictUpdate {α : Type} (d other : Layer α) : Layer α :=
  other.foldl (fun acc kv => dictSet acc kv.1 kv.2) d

/-- Python `key in chainmap`: the key is in some layer. -/
def ctxContains {α : Type} (maps : CtxMaps α) (k : String) : Bool :=
  maps.any (fun m => dictContains m k)

/-- Python `str.split(" ")` (split at every single space, no collapsing),
on the character list. -/
def splitSpaceChars : List Char → List (List Char)
  | [] => [[]]
  | c :: rest =>
    match splitSpaceChars rest with
    | [] => [[c]]
    | t :: ts => if c = ' ' then [] :: t :: ts else (c :: t) :: ts

/-- Python `key.split(" ")`. -/
def splitSpace (s : String) : List String :=
  (splitSpaceChars s.data).map List.asString

/-- Python `str.isnumeric` restricted to the ASCII digits that the embedded
keys use: nonempty and all digits. -/
def pyIsNumeric (s : String) : Bool :=
  decide (s.data ≠ []) && s.data.all Char.isDigit

/-- `int(s)` for a digit string. -/
def digitsVal (s : String) : Nat :=
  s.data.foldl (fun a c => a * 10 + (c.toNat - 48)) 0

/-- Total number of stored keys, used to bound the deduplication loop. -/
def ctxSize {α : Type} (maps : CtxMaps α) : Nat :=
  (maps.map List.length).sum

/-- The `while new_key in self` loop of `Context.__setitem__`, with explicit
fuel (the loop terminates because the candidate keys `base + " " + str(i)`
are distinct for distinct `i` and the stored keys are finite; any fuel of at
least `ctxSize maps + 2` escapes). -/
def setItemLoop {α : Type} (maps : CtxMaps α) (base newKey : String) (i : Nat) :
    Nat → String
  | 0 => newKey
  | fuel + 1 =>
    if ctxContains maps newKey then
      setItemLoop maps base (base ++ " " ++ Nat.repr i) (i + 1) fuel
    else newKey

/-- Embeds `Context.__setitem__`: split the key, recognise an existing
numeric suffix, deduplicate against every layer, and store into the top
layer (`ChainMap.__setitem__` writes `maps[0]`). -/
def ctxSetItem {α : Type} (maps : CtxMaps α) (key : String) (value : α) :
    CtxMaps α :=
  let parts := splitSpace key
  let lastTok := parts.getLastD ""
  let (base, i, newKey) :=
    if pyIsNumeric lastTok then
      let b := String.intercalate " " parts.dropLast
      let j := digitsVal lastTok
      (b, j, b ++ " " ++ Nat.repr j)
    else (key, 1, key)
  let finalKey := setItemLoop maps base newKey i (ctxSize maps + 2)
  match maps with
  | [] => [[(finalKey, value)]]
  | m :: rest => dictSet m finalKey value :: rest

/-- Embeds `Context.update_ext`: `RuntimeError` on a single layer, otherwise
`maps[1].update(maps[0])` followed by `maps[0].clear()`. -/
def updateExt {α : Type} (maps : CtxMaps α) : Except Err (CtxMaps α) :=
  match maps with
  | [_] => .error .runtimeError
  | m0 :: m1 :: rest => .ok ([] :: dictUpdate m1 m0 :: rest)
  | [] => .error .indexError

/-- Embeds `ChainMap.new_child()`: push a fresh empty layer. -/
def ctxNewChild {α : Type} (maps : CtxMaps α) : CtxMaps α := [] :: maps

/-- Embeds `dict(chainmap)`: flatten the layers, newest layer winning. -/
def ctxDict {α : Type} (maps : CtxMaps α) : Layer α :=
  (maps.reverse).foldl (fun acc m => dictUpdate acc m) []

deriving instance DecidableEq for Except

/-- C4 helper, written from the claim's words (not from the source): merge
the top layer into the next by re-applying the insertion deduplication rule
to each key, then clear the top. -/
def c4SpecMerge {α : Type} (maps : CtxMaps α) : Except Err (CtxMaps α) :=
  match maps with
  | [_] => .error .runtimeError
  | m0 :: rest => .ok ([] ::
      m0.foldl (fun acc kv => ctxSetItem acc kv.1 kv.2) rest)
  | [] => .error .indexError

/-! ## DataBuffer (`datasource.DataBuffer`)

The deque of byte chunks with cumulative bit bounds, the optional stream
(modelled as the list of bytes not yet read from it), and the EOF flag.
Functions that can both mutate the buffer and raise return a `BufResult`
carrying the state at the moment of the raise. -/

/-- `datasource.DATA_BUFFER_SIZE = 1024 * 8`. -/
def DATA_BUFFER_SIZE : Nat := 1024 * 8

/-- The state of a `DataBuffer`. -/
structure DataBuffer where
  bounds : List Nat
  buffers : List (List Nat)
  streamEof : Bool
  stream : List Nat
deriving DecidableEq, Repr

/-- Result of a fallible `DataBuffer` operation: the Python object survives a
raise, so the state at the raise is kept. -/
inductive BufResult (α : Type) where
  | ok (a : α) (db : DataBuffer)
  | exc (e : Err) (db : DataBuffer)
deriving DecidableEq, Repr

/-- `DataBuffer.lower_bound`: `self._bounds[0]`. -/
def DataBuffer.lowerBound (db : DataBuffer) : Nat := db.bounds.headD 0

/-- `DataBuffer.upper_bound`: `self._bounds[-1]`. -/
def DataBuffer.upperBound (db : DataBuffer) : Nat := db.bounds.getLastD 0

/-- Embeds `DataBuffer.__init__` for a `bytes` source: one chunk, EOF set. -/
def dataBufferOfBytes (src : List Nat) : DataBuffer :=
  { bounds := [0, bitlen src]
    buffers := [src]
    streamEof := true
    stream := [] }

/-- Embeds `DataBuffer._load_from_stream`.  `stream.read(n)` yields
`min n remaining` bytes; a short (or empty) read marks EOF, and a nonempty
read appends exactly one chunk. -/
def loadFromStream (db : DataBuffer) (bitLength : Option Nat) :
    BufResult Nat :=
  if db.streamEof then
    match bitLength with
    | none => .ok 0 db
    | some _ => .exc .fbNoData db
  else
    match bitLength with
    | some bl =>
      let byteLength := uptobyte (max DATA_BUFFER_SIZE bl)
      let readLength := byteLength * 8
      let data := db.stream.take byteLength
      let db := { db with stream := db.stream.drop byteLength }
      let dataLength := bitlen data
      let db := { db with streamEof := dataLength < readLength }
      if dataLength = 0 then .ok 0 db
      else .ok dataLength { db with
        bounds := db.bounds ++ [db.upperBound + dataLength]
        buffers := db.buffers ++ [data] }
    | none =>
      let data := db.stream
      let db := { db with stream := [], streamEof := true }
      let dataLength := bitlen data
      if dataLength = 0 then .ok 0 db
      else .ok dataLength { db with
        bounds := db.bounds ++ [db.upperBound + dataLength]
        buffers := db.buffers ++ [data] }

/-- Embeds `DataBuffer.__init__` for a streaming source: start empty, then
`_load_from_stream(DATA_BUFFER_SIZE)`. -/
def dataBufferOfStream (src : List Nat) : DataBuffer :=
  let db0 : DataBuffer :=
    { bounds := [0], buffers := [], streamEof := false, stream := src }
  match loadFromStream db0 (some DATA_BUFFER_SIZE) with
  | .ok _ db => db
  | .exc _ db => db

/-- Python `bisect.bisect_right` on a sorted list: the number of elements
`≤ x`. -/
def bisectRight (l : List Nat) (x : Nat) : Nat :=
  l.countP (fun y => decide (y ≤ x))

/-- Python `bisect.bisect_left` on a sorted list: the number of elements
`< x`. -/
def bisectLeft (l : List Nat) (x : Nat) : Nat :=
  l.countP (fun y => decide (y < x))

/-- Embeds `DataBuffer._concatenate_bits_in_range` (with `assert` failures
surfacing as `AssertionError`; callers guarantee `stop > lower_bound`, so the
`stop_buffer` subtraction never truncates). -/
def concatenateBitsInRange (db : DataBuffer) (start stop : Nat) :
    Except Err BitwiseBytes :=
  if ¬ (start < stop) then .error .assertionError
  else
    let length := stop - start
    let sb := bisectRight db.bounds start
    if sb = 0 then .error .assertionError
    else
      let startBuffer := sb - 1
      if ¬ (startBuffer < db.buffers.length) then .error .assertionError
      else
        let stopBuffer := bisectLeft db.bounds stop - 1
        let startBufferStartBit := start - db.bounds.getD startBuffer 0
        let stopBufferStopBit := stop - db.bounds.getD stopBuffer 0
        let startBufferStartByte := downtobyte startBufferStartBit
        let stopBufferStopByte := uptobyte stopBufferStopBit
        let byteResult :=
          if startBuffer = stopBuffer then
            pySlice (db.buffers.getD startBuffer [])
              startBufferStartByte stopBufferStopByte
          else if startBuffer + 1 = stopBuffer then
            (db.buffers.getD startBuffer []).drop startBufferStartByte ++
              (db.buffers.getD stopBuffer []).take stopBufferStopByte
          else
            (db.buffers.getD startBuffer []).drop startBufferStartByte ++
              ((db.buffers.drop (startBuffer + 1)).take
                (stopBuffer - (startBuffer + 1))).flatten ++
              (db.buffers.getD stopBuffer []).take stopBufferStopByte
        let startSlice := start % 8
        let stopSlice := startSlice + length
        .ok (bwbOfBytes byteResult startSlice stopSlice)

/-- Embeds `DataBuffer.get_data`.  The length is an `Int` because `_spacer`
can pass a negative length, which the source rejects with `IndexError`. -/
def getData (db : DataBuffer) (start : Nat) (bitLength : Option Int) :
    BufResult (BitwiseBytes × Nat) :=
  if start < db.lowerBound then .exc .indexError db
  else
    match bitLength with
    | none =>
      match loadFromStream db none with
      | .exc e db => .exc e db
      | .ok _ db =>
        let stop := db.upperBound
        match concatenateBitsInRange db start stop with
        | .error e => .exc e db
        | .ok bb => .ok (bb, stop) db
    | some bl =>
      if bl < 0 then .exc .indexError db
      else
        let stop := start + bl.toNat
        if stop > db.upperBound then
          let bitsNeeded := stop - db.upperBound
          match loadFromStream db (some bitsNeeded) with
          | .exc e db => .exc e db
          | .ok got db =>
            if got < bitsNeeded then .exc .fbNoData db
            else
              match concatenateBitsInRange db start stop with
              | .error e => .exc e db
              | .ok bb => .ok (bb, stop) db
        else
          match concatenateBitsInRange db start stop with
          | .error e => .exc e db
          | .ok bb => .ok (bb, stop) db

/-- The `while` loop of `DataBuffer.trim`: discard leading chunks while more
than one chunk remains and `addr` lies at or past the second bound. -/
def trimLoop (bounds : List Nat) (buffers : List (List Nat)) (addr : Nat) :
    List Nat × List (List Nat) :=
  match bounds with
  | b0 :: b1 :: b2 :: rest =>
    if addr ≥ b1 then trimLoop (b1 :: b2 :: rest) (buffers.drop 1) addr
    else (b0 :: b1 :: b2 :: rest, buffers)
  | bs => (bs, buffers)

/-- Embeds `DataBuffer.trim` (the two `assert` statements surface as
`AssertionError`). -/
def DataBuffer.trim (db : DataBuffer) (addr : Nat) : Except Err DataBuffer :=
  if ¬ (addr ≤ db.upperBound) then .error .assertionError
  else if ¬ (db.bounds.length > 1) then .error .assertionError
  else
    let (bounds, buffers) := trimLoop db.bounds db.buffers addr
    .ok { db with bounds := bounds, buffers := buffers }

/-! ## DataManager (`datasource.DataManager`)

The current manager's mutable attributes live in a `Frame`; the chain of
suspended ancestors is the `parents` list (nearest first), standing in for
the Python `_parent` references.  Operations return a `DMResult` carrying
the state at the moment of a raise. -/

/-- `datasource.AddrType`. -/
inductive AddrType where
  | BIT
  | BYTE
  | BYTE_STRICT
  | PARENT
deriving DecidableEq, Repr

/-- The per-manager attributes of a `DataManager`. -/
structure Frame where
  withSafe : Bool
  hasChild : Bool
  revertible : Bool
  trimSafe : Bool
  cursor : Nat
  base : Nat
  addrType : AddrType
deriving DecidableEq, Repr

/-- A `DataManager` together with its suspended ancestors and the shared
buffer. -/
structure DataManager where
  buffer : DataBuffer
  frame : Frame
  parents : List Frame
deriving DecidableEq, Repr

/-- Result of a fallible `DataManager` operation, keeping the state at the
moment of a raise. -/
inductive DMResult (α : Type) where
  | ok (a : α) (dm : DataManager)
  | exc (e : Err) (dm : DataManager)
deriving DecidableEq, Repr

/-- Embeds `DataManager._fail_if_unsafe`: `RuntimeError` when a child is
live or when the manager is outside its entered `with` scope. -/
def failIfUnsafe (dm : DataManager) : Except Err Unit :=
  if dm.frame.hasChild then .error .runtimeError
  else if !dm.frame.withSafe then .error .runtimeError
  else .ok ()

/-- Embeds the root branch of `DataManager.__init__` over a `bytes`
source. -/
def dataManagerOfBytes (src : List Nat) (addrType : AddrType := .PARENT)
    (revertible : Bool := false) : Except Err DataManager :=
  let at2 := if addrType = .PARENT then AddrType.BYTE else addrType
  if at2 = .BYTE_STRICT && decide ((0 : Nat) % 8 ≠ 0) then .error .fbError
  else .ok
    { buffer := dataBufferOfBytes src
      frame :=
        { withSafe := false, hasChild := false, revertible := revertible
          trimSafe := !revertible, cursor := 0, base := 0, addrType := at2 }
      parents := [] }

/-- Embeds `DataManager.make_child` followed by the child branch of
`DataManager.__init__`.  On the `FBError`/`RuntimeError` raises inside
`__init__` the parent's `has_child` flag has already been set, so the error
value carries that corrupted parent. -/
def makeChild (dm : DataManager) (relative : Bool := true)
    (addrType : AddrType := .PARENT) (revertible : Bool := false) :
    Except (Err × DataManager) DataManager :=
  match failIfUnsafe dm with
  | .error e => .error (e, dm)
  | .ok () =>
    let parentFrame := { dm.frame with hasChild := true }
    let trimSafe := dm.frame.trimSafe && !revertible
    let cursor := dm.frame.cursor
    let base := if relative then cursor else dm.frame.base
    let at2 := if addrType = .PARENT then dm.frame.addrType else addrType
    let corrupted := { dm with frame := parentFrame }
    if at2 = .BYTE_STRICT && decide (cursor % 8 ≠ 0) then
      .error (.fbError, corrupted)
    else if decide (parentFrame.addrType ≠ at2) && !relative then
      .error (.runtimeError, corrupted)
    else .ok
      { buffer := dm.buffer
        frame :=
          { withSafe := false, hasChild := false, revertible := revertible
            trimSafe := trimSafe, cursor := cursor, base := base
            addrType := at2 }
        parents := parentFrame :: dm.parents }

/-- Embeds `DataManager.__enter__`. -/
def dmEnter (dm : DataManager) : DataManager :=
  { dm with frame := { dm.frame with withSafe := true } }

/-- Embeds `DataManager._trim`. -/
def dmTrim (dm : DataManager) : DMResult Unit :=
  match failIfUnsafe dm with
  | .error e => .exc e dm
  | .ok () =>
    if dm.frame.trimSafe then
      match dm.buffer.trim dm.frame.cursor with
      | .error e => .exc e dm
      | .ok db => .ok () { dm with buffer := db }
    else .ok () dm

/-- Embeds `DataManager.read_bits`. -/
def readBits (dm : DataManager) (bitLength : Option Int := none) :
    DMResult BitwiseBytes :=
  match failIfUnsafe dm with
  | .error e => .exc e dm
  | .ok () =>
    let startAddr := dm.frame.cursor
    if bitLength = some 0 then .ok (bwbOfBytes [] 0 0) dm
    else
      match getData dm.buffer startAddr bitLength with
      | .exc e db => .exc e { dm with buffer := db }
      | .ok (result, stopAddr) db =>
        let dm := { dm with buffer := db
                            frame := { dm.frame with cursor := stopAddr } }
        match dmTrim dm with
        | .exc e dm => .exc e dm
        | .ok () dm => .ok result dm

/-- Embeds `DataManager.read_bytes`. -/
def readBytes (dm : DataManager) (byteLength : Option Int := none) :
    DMResult (List Nat) :=
  match failIfUnsafe dm with
  | .error e => .exc e dm
  | .ok () =>
    match byteLength with
    | none =>
      match readBits dm none with
      | .exc e dm => .exc e dm
      | .ok bb dm => .ok bb.toBytes dm
    | some bl =>
      if bl = 0 then .ok [] dm
      else
        match readBits dm (some (bl * 8)) with
        | .exc e dm => .exc e dm
        | .ok bb dm => .ok bb.toBytes dm

/-- Embeds `DataManager.read`: dispatch on the addressing mode (`BYTE` reads
bytes; every other mode reads bits and converts). -/
def dmRead (dm : DataManager) (length : Option Int := none) :
    DMResult (List Nat) :=
  match failIfUnsafe dm with
  | .error e => .exc e dm
  | .ok () =>
    if dm.frame.addrType = .BYTE then readBytes dm length
    else
      match readBits dm length with
      | .exc e dm => .exc e dm
      | .ok bb dm => .ok bb.toBytes dm

/-- Embeds the `DataManager.address` property. -/
def dmAddress (dm : DataManager) : Except Err Nat :=
  match failIfUnsafe dm with
  | .error e => .error e
  | .ok () =>
    if dm.frame.addrType = .BYTE then
      .ok ((dm.frame.cursor - dm.frame.base) / 8)
    else .ok (dm.frame.cursor - dm.frame.base)

/-- Embeds `DataManager.__exit__`.  `excIn` is the exception unwinding
through the scope (`none` on normal exit).  The result state is the parent
manager reinstated as current (for the root, the spent manager itself); a
re-raise leaves the parent's `has_child` guard set, as in the source. -/
def dmExit (dm : DataManager) (excIn : Option Err) : DMResult Unit :=
  let frame := { dm.frame with withSafe := false }
  let dm := { dm with frame := frame }
  match excIn with
  | none =>
    match dm.parents with
    | [] => .ok () dm
    | p :: rest =>
      if p.addrType = .BYTE && decide ((frame.cursor - frame.base) % 8 ≠ 0)
      then .exc .runtimeError { buffer := dm.buffer, frame := p, parents := rest }
      else
        let p2 := { p with cursor := frame.cursor, hasChild := false }
        let parentDM : DataManager :=
          { buffer := dm.buffer, frame := p2, parents := rest }
        match dmTrim parentDM with
        | .exc e pdm => .exc e pdm
        | .ok () pdm => .ok () pdm
  | some e =>
    if e.isFB && frame.revertible then
      match dm.parents with
      | [] => .ok () dm
      | p :: rest =>
        .ok () { buffer := dm.buffer
                 frame := { p with hasChild := false }, parents := rest }
    else
      match dm.parents with
      | [] => .exc e dm
      | p :: rest =>
        .exc e { buffer := dm.buffer, frame := p, parents := rest }

/-- Test scaffolding: the error of a `DMResult`. -/
def DMResult.errOf {α : Type} : DMResult α → Option Err
  | .exc e _ => some e
  | .ok _ _ => none

/-- Test scaffolding: the state carried by a `DMResult`. -/
def DMResult.stateOf {α : Type} : DMResult α → DataManager
  | .ok _ dm => dm
  | .exc _ dm => dm

/-- Test scaffolding: extract a successfully constructed manager. -/
def exceptOkOr (r : Except Err DataManager) : DataManager :=
  match r with
  | .ok dm => dm
  | .error _ =>
    { buffer := dataBufferOfBytes []
      frame :=
        { withSafe := false, hasChild := false, revertible := false
          trimSafe := false, cursor := 0, base := 0, addrType := .BYTE }
      parents := [] }

/-- Test scaffolding: the error branch of `make_child`. -/
def childErr (r : Except (Err × DataManager) DataManager) : Option Err :=
  match r with
  | .error (e, _) => some e
  | .ok _ => none

/-! ## Parser evaluation (`core.Parser`, `core.Block`, `core.Section`)

A deep embedding of the parser trees the claims quantify over.  The leaf
contracts (`Bytes(n)`, `Failure`) are modelled from the spec because the
`basictypes` module in the tree still targets a previous revision of the
core API; the combinator and engine semantics are embedded from
`core.py`. -/

/-- A stored parse result: raw bytes or a nested map (a `Block` value). -/
inductive Value where
  | bytesV (bs : List Nat)
  | dictV (entries : List (String × Value))

/-- A parser tree.  Each node carries the `Parser` base attributes
(label, target address); `leafBytes` and `failureLeaf` are the spec-modelled
leaves, `blockP`/`sectionP` embed `core.Block` / `core.Section`. -/
inductive FP where
  | leafBytes (label : Option String) (address : Option Nat) (n : Nat)
  | failureLeaf (label : Option String) (address : Option Nat)
  | blockP (label : Option String) (address : Option Nat)
      (relative : Bool) (addrType : AddrType) (elems : List FP)
  | sectionP (label : Option String) (address : Option Nat)
      (opt : Bool) (relative : Bool) (addrType : AddrType) (elems : List FP)

/-- The parser's `_label` attribute. -/
def FP.label : FP → Option String
  | .leafBytes l _ _ => l
  | .failureLeaf l _ => l
  | .blockP l _ _ _ _ => l
  | .sectionP l _ _ _ _ _ => l

/-- The parser's `_address` attribute. -/
def FP.address : FP → Option Nat
  | .leafBytes _ a _ => a
  | .failureLeaf _ a => a
  | .blockP _ a _ _ _ => a
  | .sectionP _ a _ _ _ _ => a

/-- The class-level `_backup_label`. -/
def FP.backupLabel : FP → String
  | .leafBytes _ _ _ => "Bytes"
  | .failureLeaf _ _ => "Data"
  | .blockP _ _ _ _ _ => "Block"
  | .sectionP _ _ _ _ _ _ => "Section"

/-- The effective storage key of `Parser._store` as used by
`goto_addr_and_read`: the label if truthy, else
`backup_label + "_" + hex(addr)`. -/
def effLabel (p : FP) (addr : Nat) : String :=
  match p.label with
  | some l => if l = "" then p.backupLabel ++ "_" ++ pyHex addr else l
  | none => p.backupLabel ++ "_" ++ pyHex addr

/-- What `Parser.read` can evaluate to, after `goto_addr_and_read`'s
dispatch: a plain value, a `Context` (from `Section.read`), a plain dict
(from `Block.read`), or the `Success`/`Reverted` sentinels. -/
inductive ParseOut where
  | value (v : Value)
  | ctxOut (maps : CtxMaps Value)
  | dictOut (d : Layer Value)
  | success
  | reverted

/-- Result of running a piece of parser code: the manager state, the context
stack (`Contexts` tuple), and either a value or an unwinding exception. -/
inductive EngineRes (α : Type) where
  | ok (a : α) (dm : DataManager) (ctxs : List (CtxMaps Value))
  | exc (e : Err) (dm : DataManager) (ctxs : List (CtxMaps Value))

/-- Embeds `core._spacer`: read from the current address up to `stopAddr`
and store the read bytes under the synthesized spacer label in
`contexts[0]`.  A target behind the cursor reaches `data.read` with a
negative length. -/
def spacer (dm : DataManager) (ctxs : List (CtxMaps Value)) (stopAddr : Nat) :
    EngineRes Unit :=
  match dmAddress dm with
  | .error e => .exc e dm ctxs
  | .ok startAddr =>
    if stopAddr = startAddr then .ok () dm ctxs
    else
      let lengthI : Int := (stopAddr : Int) - (startAddr : Int)
      let spacerLabel :=
        if lengthI > 1 then
          "spacer_" ++ pyHex startAddr ++ "-" ++ pyHex (stopAddr - 1)
        else "spacer_" ++ pyHex startAddr
      match dmRead dm (some lengthI) with
      | .exc e dm => .exc e dm ctxs
      | .ok bs dm =>
        match ctxs with
        | [] => .exc .indexError dm ctxs
        | c0 :: crest =>
          .ok () dm (ctxSetItem c0 spacerLabel (.bytesV bs) :: crest)

mutual

/-- Embeds `Parser.read` (with the identity `translate`, hence also
`read_and_translate`) over the parser AST: the spec-modelled leaves, and the
`Block.read` / `Section.read` bodies with their `with data.make_child(...)`
scopes.  On a suppressed failure the `with` statement falls through to the
`return Reverted` after the block. -/
def fpRead : FP → DataManager → List (CtxMaps Value) → EngineRes ParseOut
  | .leafBytes _ _ n, dm, ctxs =>
    -- Modelled from the spec: `Bytes(n)` reads `n` units via `data.read`.
    (match dmRead dm (some (n : Int)) with
     | .exc e dm => .exc e dm ctxs
     | .ok bs dm => .ok (.value (.bytesV bs)) dm ctxs)
  | .failureLeaf _ _, dm, ctxs =>
    -- Modelled from the spec: `Failure` always raises the recoverable error.
    .exc .fbError dm ctxs
  | .blockP _ _ rel at2 elems, dm, ctxs =>
    (match makeChild dm rel at2 false with
     | .error (e, dm) => .exc e dm ctxs
     | .ok child =>
       let child := dmEnter child
       let outCtx : CtxMaps Value := [[]]
       match runElems elems child (outCtx :: ctxs) with
       | .ok () child ctxs2 =>
         (match dmExit child none with
          | .exc e pdm => .exc e pdm ctxs2.tail
          | .ok () pdm => .ok (.dictOut (ctxDict (ctxs2.headD []))) pdm
              ctxs2.tail)
       | .exc e child ctxs2 =>
         (match dmExit child (some e) with
          | .ok () pdm => .ok .reverted pdm ctxs2.tail
          | .exc e2 pdm => .exc e2 pdm ctxs2.tail))
  | .sectionP _ _ _ _ _ _, dm, [] =>
    -- `contexts[0]` on an empty tuple is unreachable from `parse`.
    .exc .indexError dm []
  | .sectionP _ _ opt rel at2 elems, dm, c0 :: crest =>
    (match makeChild dm rel at2 opt with
     | .error (e, dm) => .exc e dm (c0 :: crest)
     | .ok child =>
       let child := dmEnter child
       let outCtx := ctxNewChild c0
       match runElems elems child (outCtx :: crest) with
       | .ok () child ctxs2 =>
         (match dmExit child none with
          | .exc e pdm => .exc e pdm ((ctxs2.headD []).tail :: ctxs2.tail)
          | .ok () pdm => .ok (.ctxOut (ctxs2.headD [])) pdm
              ((ctxs2.headD []).tail :: ctxs2.tail))
       | .exc e child ctxs2 =>
         (match dmExit child (some e) with
          | .ok () pdm => .ok .reverted pdm
              ((ctxs2.headD []).tail :: ctxs2.tail)
          | .exc e2 pdm => .exc e2 pdm
              ((ctxs2.headD []).tail :: ctxs2.tail)))

/-- Embeds `Parser.goto_addr_and_read`: spacer to the target address, read,
then dispatch on the result (merge a `Context`, store a value under the
effective label, pass `Success`/`Reverted` through). -/
def gotoAddrAndRead (p : FP) (dm : DataManager)
    (ctxs : List (CtxMaps Value)) : EngineRes ParseOut :=
  match (match p.address with
         | some a => spacer dm ctxs a
         | none => .ok () dm ctxs) with
  | .exc e dm ctxs => .exc e dm ctxs
  | .ok () dm ctxs =>
    match dmAddress dm with
    | .error e => .exc e dm ctxs
    | .ok addr =>
      match fpRead p dm ctxs with
      | .exc e dm ctxs => .exc e dm ctxs
      | .ok out dm ctxs =>
        match out with
        | .reverted => .ok .reverted dm ctxs
        | .ctxOut maps =>
          (match updateExt maps with
           | .error e => .exc e dm ctxs
           | .ok newMaps => .ok .success dm (newMaps.tail :: ctxs.tail))
        | .success => .ok .success dm ctxs
        | .value v =>
          .ok .success dm
            (ctxSetItem (ctxs.headD []) (effLabel p addr) v :: ctxs.tail)
        | .dictOut d =>
          .ok .success dm
            (ctxSetItem (ctxs.headD []) (effLabel p addr) (.dictV d) ::
              ctxs.tail)

/-- The element loop shared by `Block.read` and `Section.read`: run
`goto_addr_and_read` on each element in order, ignoring its
`Success`/`Reverted` result; the first unwinding exception aborts the
loop. -/
def runElems : List FP → DataManager → List (CtxMaps Value) →
    EngineRes Unit
  | [], dm, ctxs => .ok () dm ctxs
  | p :: rest, dm, ctxs =>
    match gotoAddrAndRead p dm ctxs with
    | .exc e dm ctxs => .exc e dm ctxs
    | .ok _ dm ctxs => runElems rest dm ctxs

end

/-- Test scaffolding: the state carried by an `EngineRes`. -/
def EngineRes.stateOf {α : Type} : EngineRes α → DataManager
  | .ok _ dm _ => dm
  | .exc _ dm _ => dm

/-- Test scaffolding: the context stack carried by an `EngineRes`. -/
def EngineRes.ctxsOf {α : Type} : EngineRes α → List (CtxMaps Value)
  | .ok _ _ ctxs => ctxs
  | .exc _ _ ctxs => ctxs

/-- The manager attributes that no parser-evaluation step may change: the
ancestor chain and every frame field except the cursor and the transient
`has_child` guard. -/
def dmPres (a b : DataManager) : Prop :=
  a.parents = b.parents ∧
  a.frame.revertible = b.frame.revertible ∧
  a.frame.base = b.frame.base ∧
  a.frame.withSafe = b.frame.withSafe ∧
  a.frame.addrType = b.frame.addrType ∧
  a.frame.trimSafe = b.frame.trimSafe

/-- All engine writes stay inside the top layer of the head context: the
rest of the stack and the lower layers of the head are untouched. -/
def ctxPres (a b : List (CtxMaps Value)) : Prop :=
  a.tail = b.tail ∧ (a.headD []).tail = (b.headD []).tail

/-- The two preservation invariants bundled over an engine result. -/
def resPres {α : Type} (r : EngineRes α) (dm : DataManager)
    (ctxs : List (CtxMaps Value)) : Prop :=
  dmPres r.stateOf dm ∧ ctxPres r.ctxsOf ctxs

/-- When `Parser.read` returns a `Context` (only `Section.read` does), the
returned chainmap chains directly onto the head of the output context
stack. -/
def fpReadCtxShape (p : FP) (dm : DataManager)
    (ctxs : List (CtxMaps Value)) : Prop :=
  ∀ M dm2 c2, fpRead p dm ctxs = .ok (.ctxOut M) dm2 c2 →
    c2.headD [] = M.tail

/-- Test scaffolding for the C1 witness: an entered byte-mode root manager
over two bytes. -/
def c1Dm : DataManager := dmEnter (exceptOkOr (dataManagerOfBytes [0x01, 0x02]))

/-- Test scaffolding for the C1 witness: the revertible child created for
the optional section. -/
def c1Child : DataManager :=
  match makeChild c1Dm true .PARENT true with
  | .ok c => c
  | .error _ => c1Dm

/-- ChainMap lookup: the first layer holding the key wins. -/
def ctxGet {α : Type} : CtxMaps α → String → Option α
  | [], _ => none
  | m :: rest, k =>
    match dictGet m k with
    | some v => some v
    | none => ctxGet rest k

/-- Embeds `core.get_from_contexts` for a string key: scan the contexts
newest-first and return the first hit, else `KeyError`. -/
def get_from_contexts {α : Type} (contexts : List (CtxMaps α))
    (key : String) : Except Err α :=
  match contexts.find? (fun c => ctxContains c key) with
  | some c =>
    match ctxGet c key with
    | some v => .ok v
    | none => .error .keyError
  | none => .error .keyError

/-- Embeds the quantity dispatch at the top of `Repeat.read` and
`Array.read`:

```
if isinstance(self._repeat_qty, str):
    reps = get_from_contexts(contexts, self._repeat_qty)
if isinstance(self._repeat_qty, int):
    reps = self._repeat_qty
else:
    raise ValueError
```

the missing `elif` makes the `str` case fall into the `else` arm after the
lookup, so every string quantity raises `ValueError`. -/
def resolveReps {α : Type} (contexts : List (CtxMaps α)) (q : PyVal) :
    Except Err Int :=
  match q with
  | .str s =>
    match get_from_contexts contexts s with
    | .error e => .error e
    | .ok _ => .error .valueError
  | .int n => .ok n

/-- Embeds the argument validation of `Repeat.__init__`:
`validate_address_or_length(repeat_qty, 1)`. -/
def repeatInit (q : PyVal) : Except Err PyVal := do
  validate_address_or_length q 1
  return q

/-- Embeds the argument validation of `Array.__init__`:
`validate_address_or_length(repeat_qty)`. -/
def arrayInit (q : PyVal) : Except Err PyVal := do
  validate_address_or_length q
  return q

/-- Test scaffolding for the C7 witness: a stream-backed buffer before its
first fill. -/
def c7Db : DataBuffer :=
  { bounds := [0], buffers := [], streamEof := false
    stream := List.replicate 1500 7 }

/-- Test scaffolding for C9: an entered root manager over one byte. -/
def c9Mgr : DataManager := dmEnter (exceptOkOr (dataManagerOfBytes [0xAB]))

/-- Test scaffolding for C9: an entered root manager over empty bytes. -/
def c9Empty : DataManager := dmEnter (exceptOkOr (dataManagerOfBytes []))

/-- Test scaffolding for C6: an entered root manager in `BYTE_STRICT` mode
over two bytes. -/
def c6Mgr : DataManager :=
  dmEnter (exceptOkOr (dataManagerOfBytes [0x01, 0x02] .BYTE_STRICT))

/-- Test scaffolding for C6: a bit-mode manager mid-byte (cursor 3). -/
def c6BitMgr : DataManager :=
  (readBits (dmEnter (exceptOkOr (dataManagerOfBytes [0xFF, 0x00] .BIT)))
    (some 3)).stateOf

/-- Test scaffolding for C5: a root byte-mode manager over `data`, entered,
with the cursor at byte `c`.  This is the state `DataManager(data)` reaches
after reading `c` bytes. -/
def c5Root (data : List Nat) (c : Nat) : DataManager :=
  { buffer := dataBufferOfBytes data
    frame := { withSafe := true, hasChild := false, revertible := false
               trimSafe := true, cursor := 8 * c, base := 0
               addrType := .BYTE }
    parents := [] }

/-- Test scaffolding: the error of an `EngineRes`. -/
def EngineRes.errOf {α : Type} : EngineRes α → Option Err
  | .exc e _ _ => some e
  | .ok _ _ _ => none

/-- Test scaffolding for C5: an optional (revertible) `Section` whose one
element targets address 1. -/
def c5OptSection : FP :=
  FP.sectionP none none true false .PARENT [FP.leafBytes none (some 1) 1]

/-! ## Claim theorems and supporting lemmas -/

/-- A byte value is unchanged by masking with `0xFF`. -/
theorem byte_and_255 {b : Nat} (h : b < 256) : b &&& 255 = b := by
  have h2 : b &&& (2 ^ 8 - 1) = b % 2 ^ 8 := Nat.and_pow_two_sub_one_eq_mod b 8
  norm_num at h2
  rw [h2, Nat.mod_eq_of_lt h]

/-- Taking one more element appends the element at that index. -/
theorem take_succ_getD (l : List Nat) (j : Nat) (h : j < l.length) :
    l.take (j + 1) = l.take j ++ [l[j]] := by
  rw [List.take_succ, List.getElem?_eq_getElem h]
  rfl

/-- Materializing a byte-aligned prefix range `[0, 8k)` of a byte string
yields exactly the first `k` bytes. -/
theorem toBytes_aligned (bs : List Nat) (k : Nat) (hk : 0 < k)
    (hlen : k ≤ bs.length) (hb : ∀ b ∈ bs, b < 256) :
    (bwbOfBytes bs 0 (8 * k)).toBytes = bs.take k := by
  obtain ⟨b0, rest, rfl⟩ : ∃ b0 rest, bs = b0 :: rest := by
    cases bs with
    | nil => simp at hlen; omega
    | cons x xs => exact ⟨x, xs, rfl⟩
  have hb0 : b0 &&& 255 = b0 := byte_and_255 (hb b0 (by simp))
  match k with
  | 1 =>
    simp [bwbOfBytes, BitwiseBytes.toBytes, hb0]
  | 2 =>
    obtain ⟨b1, rest2, rfl⟩ : ∃ b1 rest2, rest = b1 :: rest2 := by
      cases rest with
      | nil => simp at hlen
      | cons x xs => exact ⟨x, xs, rfl⟩
    have hb1 : b1 &&& 255 = b1 := byte_and_255 (hb b1 (by simp))
    simp [bwbOfBytes, BitwiseBytes.toBytes, hb1, hb0]
  | (m + 3) =>
    have hrest : m + 1 < rest.length := by
      simp only [List.length_cons] at hlen
      omega
    have hx : rest[m + 1]?.getD 0 = rest[m + 1] := by
      rw [List.getElem?_eq_getElem hrest, Option.getD_some]
    have hlast : rest[m + 1] &&& 255 = rest[m + 1] :=
      byte_and_255 (hb _ (List.mem_cons_of_mem _ (List.getElem_mem hrest)))
    have lhs_eq : (bwbOfBytes (b0 :: rest) 0 (8 * (m + 3))).toBytes
        = b0 :: (rest.take (m + 1) ++ [rest[m + 1]]) := by
      have harith1 : (8 * (m + 3)) / 8 = m + 3 := by omega
      have harith2 : (8 * (m + 3)) % 8 = 0 := by omega
      simp [bwbOfBytes, BitwiseBytes.toBytes, harith1, harith2, hb0,
        pySlice, hx, hlast]
    rw [lhs_eq, ← take_succ_getD rest (m + 1) hrest]
    simp

/-- C2 counterexample: on `b = ff ff`, `L = 12`, the code materializes the
single byte `ff` (right-shifted, with the leading 4 bits dropped), while the
claim demands the two bytes `ff f0`. -/
theorem c2_counterexample :
    (bwbOfBytes [0xFF, 0xFF] 0 12).toBytes = [0xFF] ∧
    c2Claimed [0xFF, 0xFF] 12 = [0xFF, 0xF0] ∧
    (bwbOfBytes [0xFF, 0xFF] 0 12).toBytes ≠ c2Claimed [0xFF, 0xFF] 12 := by
  refine ⟨by decide, by decide, by decide⟩

/-- C2 (amended): materialization is right-justified rather than left-aligned:
for `L` a positive multiple of 8 it yields exactly the first `L/8` bytes of
`b`; for `L < 8` it yields the single byte `b[0] >> (8 - L)`; and for `L > 8`
not a multiple of 8 the output has only `L/8 = ceil(L/8) - 1` bytes, so the
leading `L mod 8` bits of the range are dropped. -/
theorem c2_amended (b : List Nat) (L : Nat) (hb : ∀ x ∈ b, x < 256)
    (hpos : 0 < L) (hle : L ≤ bitlen b) :
    (8 ∣ L → (bwbOfBytes b 0 L).toBytes = b.take (L / 8)) ∧
    (L < 8 → (bwbOfBytes b 0 L).toBytes = [b.getD 0 0 >>> (8 - L)]) ∧
    (8 < L → L % 8 ≠ 0 →
      (bwbOfBytes b 0 L).toBytes.length = L / 8 ∧ uptobyte L = L / 8 + 1) := by
  refine ⟨?_, ?_, ?_⟩
  · rintro ⟨k, rfl⟩
    have hk : 0 < k := by omega
    have hlen : k ≤ b.length := by unfold bitlen at hle; omega
    have : 8 * k / 8 = k := by omega
    rw [this]
    exact toBytes_aligned b k hk hlen hb
  · intro hlt
    obtain ⟨b0, rest, rfl⟩ : ∃ b0 rest, b = b0 :: rest := by
      cases b with
      | nil => unfold bitlen at hle; simp at hle; omega
      | cons x xs => exact ⟨x, xs, rfl⟩
    have hb0 : b0 &&& 255 = b0 := byte_and_255 (hb b0 (by simp))
    have h1 : L / 8 = 0 := by omega
    have h2 : L % 8 = L := by omega
    have h3 : (8 - L) % 8 = 8 - L := by omega
    simp [bwbOfBytes, BitwiseBytes.toBytes, h1, h2, h3, hb0, hpos.ne.symm]
  · intro hgt hmod
    have hdiv_pos : 1 ≤ L / 8 := by omega
    have hblen : L / 8 < b.length := by
      unfold bitlen at hle
      omega
    constructor
    · have hne : L ≠ 0 := by omega
      have hstop : L % 8 ≠ 0 := hmod
      rcases Nat.lt_or_ge (L / 8) 2 with hsmall | hbig
      · have h1 : L / 8 = 1 := by omega
        simp [bwbOfBytes, BitwiseBytes.toBytes, hne, h1, hmod]
      · have hmulti : L / 8 > 1 := hbig
        have hmidlen : (pySlice b 1 (L / 8)).length = L / 8 - 1 := by
          simp [pySlice]
          omega
        simp [bwbOfBytes, BitwiseBytes.toBytes, hne, hmod, hmulti,
          Nat.ne_of_gt (by omega : L / 8 > 0), hmidlen]
        omega
    · unfold uptobyte
      omega

/-- C10: evaluating the slice operator at the failing input: the view
`BitwiseBytes(b"\x0f", 4, 8)` consists of four one-bits, but its slice `[0:1]`
is rebuilt from the raw bytes with the view's start offset discarded, so the
slice's bit 0 is the underlying byte's bit 0 (`False`) instead of the view's
bit 0 (`True`). -/
theorem c10_slice_eval :
    (bwbOfBytes [0x0F] 4 8).getBit 0 = true ∧
    ((bwbOfBytes [0x0F] 4 8).getItemSlice 0 1).length = 1 ∧
    ((bwbOfBytes [0x0F] 4 8).getItemSlice 0 1).getBit 0 = false := by
  refine ⟨by decide, by decide, by decide⟩

/-- Unfolding `dictGet` over a cons cell. -/
theorem dictGet_cons {α : Type} (k1 : String) (v1 : α) (t : Layer α)
    (k : String) :
    dictGet ((k1, v1) :: t) k = if k1 = k then some v1 else dictGet t k := by
  unfold dictGet
  rw [List.find?_cons]
  by_cases h : k1 = k <;> simp [h]

/-- Unfolding `dictContains` over a cons cell. -/
theorem dictContains_cons {α : Type} (k1 : String) (v1 : α) (t : Layer α)
    (k : String) :
    dictContains ((k1, v1) :: t) k = (decide (k1 = k) || dictContains t k) := by
  simp [dictContains]

/-- Appending a fresh binding: lookups of the new key find it, all other
lookups are unchanged. -/
theorem dictGet_append_fresh {α : Type} (d : Layer α) (k : String) (v : α)
    (k2 : String) (hc : ¬ dictContains d k) :
    dictGet (d ++ [(k, v)]) k2 = if k2 = k then some v else dictGet d k2 := by
  induction d with
  | nil =>
    rw [List.nil_append, dictGet_cons]
    by_cases h : k2 = k
    · simp [h, dictGet]
    · simp [dictGet, h, Ne.symm h]
  | cons kv t ih =>
    obtain ⟨k1, v1⟩ := kv
    have hk1 : ¬ k1 = k := by
      intro h; exact hc (by rw [dictContains_cons]; simp [h])
    have hct : ¬ dictContains t k = true := by
      intro h; exact hc (by rw [dictContains_cons]; simp [h])
    rw [List.cons_append, dictGet_cons, dictGet_cons]
    by_cases h2 : k1 = k2
    · have hne : ¬ k2 = k := fun h => hk1 (h2.trans h)
      simp [h2, hne]
    · rw [if_neg h2, if_neg h2]
      exact ih hct

/-- Overwriting inside the dict does not change lookups of other keys. -/
theorem dictGet_overwrite_other {α : Type} (d : Layer α) (k : String) (v : α)
    (k2 : String) (hne : k2 ≠ k) :
    dictGet (d.map (fun kv => if kv.1 = k then (k, v) else kv)) k2
      = dictGet d k2 := by
  induction d with
  | nil => rfl
  | cons kv t ih =>
    obtain ⟨k1, v1⟩ := kv
    by_cases h1 : k1 = k
    · simp only [List.map_cons, h1, if_true]
      rw [dictGet_cons, dictGet_cons]
      have hne2 : ¬ k = k2 := fun h => hne h.symm
      rw [if_neg hne2, if_neg hne2]
      exact ih
    · simp only [List.map_cons, h1, if_false]
      rw [dictGet_cons, dictGet_cons]
      by_cases h2 : k1 = k2
      · simp [h2]
      · rw [if_neg h2, if_neg h2]
        exact ih

/-- Overwriting inside the dict makes lookups of the overwritten key read
the new value. -/
theorem dictGet_overwrite_hit {α : Type} (d : Layer α) (k : String) (v : α)
    (hc : dictContains d k) :
    dictGet (d.map (fun kv => if kv.1 = k then (k, v) else kv)) k
      = some v := by
  induction d with
  | nil => simp [dictContains] at hc
  | cons kv t ih =>
    obtain ⟨k1, v1⟩ := kv
    by_cases h1 : k1 = k
    · simp only [List.map_cons, h1, if_true]
      rw [dictGet_cons]
      simp
    · simp only [List.map_cons, h1, if_false]
      rw [dictGet_cons]
      rw [if_neg h1]
      rw [dictContains_cons] at hc
      simp only [Bool.or_eq_true, decide_eq_true_eq] at hc
      exact ih (hc.resolve_left h1)

/-- Lookup after a Python dict assignment: the assigned key reads back the
new value, every other key is unaffected. -/
theorem dictGet_dictSet {α : Type} (d : Layer α) (k : String) (v : α)
    (k2 : String) :
    dictGet (dictSet d k v) k2 = if k2 = k then some v else dictGet d k2 := by
  unfold dictSet
  by_cases hc : dictContains d k
  · simp only [hc, if_true]
    by_cases h2 : k2 = k
    · subst h2; simp [dictGet_overwrite_hit d k2 v hc]
    · simp [h2, dictGet_overwrite_other d k v k2 h2]
  · simp only [hc, Bool.false_eq_true, if_false]
    exact dictGet_append_fresh d k v k2 hc

/-- A key bound in no entry reads back as `none`. -/
theorem dictGet_eq_none {α : Type} (d : Layer α) (k : String)
    (h : k ∉ d.map Prod.fst) : dictGet d k = none := by
  unfold dictGet
  rw [List.find?_eq_none.mpr]
  · rfl
  · intro kv hkv
    simp only [decide_eq_true_eq]
    intro hk
    exact h (by rw [← hk]; exact List.mem_map_of_mem Prod.fst hkv)

/-- Lookup after `dict.update`: keys of the top dict (with unique keys) win,
all other keys fall through to the destination. -/
theorem dictGet_dictUpdate {α : Type} (m0 : Layer α) (m1 : Layer α)
    (hnod : (m0.map Prod.fst).Nodup) (k : String) :
    dictGet (dictUpdate m1 m0) k = (dictGet m0 k).or (dictGet m1 k) := by
  induction m0 generalizing m1 with
  | nil => simp [dictUpdate, dictGet]
  | cons kv t ih =>
    obtain ⟨k0, v0⟩ := kv
    simp only [List.map_cons, List.nodup_cons] at hnod
    obtain ⟨hk0, hnt⟩ := hnod
    have hstep : dictUpdate m1 ((k0, v0) :: t)
        = dictUpdate (dictSet m1 k0 v0) t := rfl
    rw [hstep, ih (dictSet m1 k0 v0) hnt, dictGet_cons, dictGet_dictSet]
    by_cases h : k0 = k
    · subst h
      rw [dictGet_eq_none t k0 hk0]
      simp
    · rw [if_neg h, if_neg (fun hh => h hh.symm)]

/-- C4 counterexample: on the two-layer context
`maps = [{"a": 0}, {"a": 1}]`, `update_ext` overwrites the destination's
`"a"` (the result layer is `{"a": 0}`), whereas the claim's deduplication
rule would keep `"a": 1` and add a renamed `"a 1": 0`. -/
theorem c4_counterexample :
    updateExt (α := Nat) [[("a", 0)], [("a", 1)]]
      = .ok [[], [("a", 0)]] ∧
    c4SpecMerge (α := Nat) [[("a", 0)], [("a", 1)]]
      = .ok [[], [("a", 1), ("a 1", 0)]] ∧
    updateExt (α := Nat) [[("a", 0)], [("a", 1)]]
      ≠ c4SpecMerge (α := Nat) [[("a", 0)], [("a", 1)]] := by
  refine ⟨by decide, by decide, by decide⟩

/-- C4 (amended): on a context with at least two layers, `update_ext` merges
the top layer into the next one by plain `dict.update` — a key colliding
with an existing key of the destination overwrites it, no `" N"` renaming —
and then clears the top layer; on a context with exactly one layer it raises
`RuntimeError`. -/
theorem c4_amended {α : Type} (m0 m1 : Layer α) (rest : CtxMaps α)
    (hnod : (m0.map Prod.fst).Nodup) :
    updateExt (m0 :: m1 :: rest) = .ok ([] :: dictUpdate m1 m0 :: rest) ∧
    (∀ k, dictGet (dictUpdate m1 m0) k = (dictGet m0 k).or (dictGet m1 k)) ∧
    (∀ m : Layer α, updateExt [m] = .error .runtimeError) := by
  refine ⟨rfl, fun k => dictGet_dictUpdate m0 m1 hnod k, fun m => rfl⟩

/-- C4 witness: the amended behaviour evaluated on the counterexample
context. -/
theorem c4_amended_witness :
    updateExt (α := Nat) [[("a", 0)], [("a", 1)]]
      = .ok ([] :: dictUpdate [("a", 1)] [("a", 0)] :: []) ∧
    (∀ k, dictGet (dictUpdate [("a", 1)] [("a", 0)]) k
      = (dictGet [("a", 0)] k).or (dictGet [("a", 1)] k)) ∧
    (∀ m : Layer Nat, updateExt [m] = .error .runtimeError) :=
  c4_amended [("a", 0)] [("a", 1)] [] (by decide)

/-- C2 witness: the amended materialization behaviour evaluated at
`b = ab cd`, `L = 12`. -/
theorem c2_amended_witness :
    (8 ∣ 12 → (bwbOfBytes [0xAB, 0xCD] 0 12).toBytes
      = [0xAB, 0xCD].take (12 / 8)) ∧
    (12 < 8 → (bwbOfBytes [0xAB, 0xCD] 0 12).toBytes
      = [[0xAB, 0xCD].getD 0 0 >>> (8 - 12)]) ∧
    (8 < 12 → 12 % 8 ≠ 0 →
      (bwbOfBytes [0xAB, 0xCD] 0 12).toBytes.length = 12 / 8 ∧
      uptobyte 12 = 12 / 8 + 1) :=
  c2_amended [0xAB, 0xCD] 12 (by decide) (by decide) (by decide)

theorem dmPres_refl (a : DataManager) : dmPres a a := by
  unfold dmPres; exact ⟨rfl, rfl, rfl, rfl, rfl, rfl⟩

theorem dmPres_trans {a b c : DataManager} (h1 : dmPres a b)
    (h2 : dmPres b c) : dmPres a c := by
  unfold dmPres at h1 h2 ⊢
  obtain ⟨x1, x2, x3, x4, x5, x6⟩ := h1
  obtain ⟨y1, y2, y3, y4, y5, y6⟩ := h2
  exact ⟨x1.trans y1, x2.trans y2, x3.trans y3, x4.trans y4,
    x5.trans y5, x6.trans y6⟩

theorem ctxPres_refl (a : List (CtxMaps Value)) : ctxPres a a := ⟨rfl, rfl⟩

theorem ctxPres_trans {a b c : List (CtxMaps Value)} (h1 : ctxPres a b)
    (h2 : ctxPres b c) : ctxPres a c :=
  ⟨h1.1.trans h2.1, h1.2.trans h2.2⟩

theorem dmTrim_pres (dm : DataManager) : dmPres (dmTrim dm).stateOf dm := by
  unfold dmTrim
  split
  · exact dmPres_refl dm
  · split
    · split
      · exact dmPres_refl dm
      · exact ⟨rfl, rfl, rfl, rfl, rfl, rfl⟩
    · exact dmPres_refl dm

theorem readBits_pres (dm : DataManager) (l : Option Int) :
    dmPres (readBits dm l).stateOf dm := by
  unfold readBits
  split
  · exact dmPres_refl dm
  · split
    · exact dmPres_refl dm
    · dsimp only
      split
      · exact ⟨rfl, rfl, rfl, rfl, rfl, rfl⟩
      · rename_i result stopAddr db hget
        split
        all_goals
          rename_i heq
          have h1 := dmTrim_pres
            { buffer := db
              frame := { dm.frame with cursor := stopAddr }
              parents := dm.parents }
          rw [heq] at h1
          exact dmPres_trans h1 ⟨rfl, rfl, rfl, rfl, rfl, rfl⟩

theorem readBytes_pres (dm : DataManager) (l : Option Int) :
    dmPres (readBytes dm l).stateOf dm := by
  unfold readBytes
  split
  · exact dmPres_refl dm
  · split
    · have h1 := readBits_pres dm none
      split <;> rename_i heq <;> rw [heq] at h1 <;> exact h1
    · split
      · exact dmPres_refl dm
      · rename_i bl hbl
        have h1 := readBits_pres dm (some (bl * 8))
        split <;> rename_i heq <;> rw [heq] at h1 <;> exact h1

theorem dmRead_pres (dm : DataManager) (l : Option Int) :
    dmPres (dmRead dm l).stateOf dm := by
  unfold dmRead
  split
  · exact dmPres_refl dm
  · split
    · exact readBytes_pres dm l
    · have h1 := readBits_pres dm l
      split <;> rename_i heq <;> rw [heq] at h1 <;> exact h1

/-- `Context.__setitem__` writes only to the top layer. -/
theorem ctxSetItem_tail {α : Type} (maps : CtxMaps α) (k : String) (v : α) :
    (ctxSetItem maps k v).tail = maps.tail := by
  unfold ctxSetItem
  cases maps <;> rfl

theorem spacer_pres (dm : DataManager) (ctxs : List (CtxMaps Value))
    (a : Nat) :
    dmPres (spacer dm ctxs a).stateOf dm ∧
    ctxPres (spacer dm ctxs a).ctxsOf ctxs := by
  unfold spacer
  split
  · exact ⟨dmPres_refl dm, ctxPres_refl ctxs⟩
  · split
    · exact ⟨dmPres_refl dm, ctxPres_refl ctxs⟩
    · rename_i startAddr haddr hne
      dsimp only
      split
      · rename_i e dm2 hread
        have h1 := dmRead_pres dm (some ((a : Int) - (startAddr : Int)))
        rw [hread] at h1
        exact ⟨h1, ctxPres_refl ctxs⟩
      · rename_i bs dm2 hread
        have h1 := dmRead_pres dm (some ((a : Int) - (startAddr : Int)))
        rw [hread] at h1
        split
        · exact ⟨h1, ctxPres_refl _⟩
        · rename_i c0 crest
          refine ⟨h1, ?_, ?_⟩
          · rfl
          · simp only [List.headD_cons]
            exact (ctxSetItem_tail c0 _ _)

/-- Inversion of a successful `make_child`: the guard passed and the child
has the recorded shape. -/
theorem makeChild_ok_inv (dm : DataManager) (rel : Bool) (at2 : AddrType)
    (rev : Bool) (child : DataManager)
    (h : makeChild dm rel at2 rev = .ok child) :
    failIfUnsafe dm = .ok () ∧
    child.buffer = dm.buffer ∧
    child.parents = { dm.frame with hasChild := true } :: dm.parents ∧
    child.frame.revertible = rev ∧
    child.frame.withSafe = false ∧
    child.frame.hasChild = false ∧
    child.frame.cursor = dm.frame.cursor := by
  unfold makeChild at h
  split at h
  · simp at h
  · rename_i u hguard
    dsimp only at h
    repeat' split at h
    all_goals
      cases h <;> exact ⟨hguard, rfl, rfl, rfl, rfl, rfl, rfl⟩

/-- `_trim` never changes the frame. -/
theorem dmTrim_frame (dm : DataManager) :
    ((dmTrim dm).stateOf).frame = dm.frame := by
  unfold dmTrim
  split
  · rfl
  · split
    · split <;> rfl
    · rfl

/-- Shape of a normal child-scope exit. -/
theorem dmExit_none_shape (dmC : DataManager) (p : Frame)
    (rest : List Frame) (hp : dmC.parents = p :: rest) :
    dmPres (dmExit dmC none).stateOf
      { buffer := dmC.buffer, frame := p, parents := rest } ∧
    (∀ dm1, dmExit dmC none = .ok () dm1 →
      dm1.frame.hasChild = false ∧ dm1.frame.withSafe = p.withSafe ∧
      dm1.frame.cursor = dmC.frame.cursor ∧ dm1.parents = rest) := by
  unfold dmExit
  rw [hp]
  dsimp only
  split
  · rename_i halign
    exact ⟨⟨rfl, rfl, rfl, rfl, rfl, rfl⟩, by intro dm1 h; simp at h⟩
  · rename_i halign
    constructor
    · have h1 := dmTrim_pres
        { buffer := dmC.buffer
          frame := { p with cursor := dmC.frame.cursor, hasChild := false }
          parents := rest }
      split <;> rename_i heq <;> rw [heq] at h1 <;>
        exact dmPres_trans h1 ⟨rfl, rfl, rfl, rfl, rfl, rfl⟩
    · intro dm1 h
      split at h
      · simp at h
      · rename_i u dm2 heq
        cases h
        have hfr := dmTrim_frame
          { buffer := dmC.buffer
            frame := { p with cursor := dmC.frame.cursor, hasChild := false }
            parents := rest }
        rw [heq] at hfr
        dsimp only [DMResult.stateOf] at hfr
        have hpr := dmTrim_pres
          { buffer := dmC.buffer
            frame := { p with cursor := dmC.frame.cursor, hasChild := false }
            parents := rest }
        rw [heq] at hpr
        dsimp only [DMResult.stateOf] at hpr
        refine ⟨by rw [hfr], by rw [hfr], by rw [hfr], hpr.1⟩

/-- Inversion of `dmExit` on an unwinding exception, given the parent
chain. -/
theorem dmExit_some_inv (dmC : DataManager) (e : Err) (p : Frame)
    (rest : List Frame) (hp : dmC.parents = p :: rest) :
    dmPres (dmExit dmC (some e)).stateOf
      { buffer := dmC.buffer, frame := p, parents := rest } ∧
    (∀ dm1, dmExit dmC (some e) = .ok () dm1 →
      dm1 = { buffer := dmC.buffer, frame := { p with hasChild := false }
              parents := rest }) ∧
    (∀ e2 dm1, dmExit dmC (some e) = .exc e2 dm1 →
      e2 = e ∧
      dm1 = { buffer := dmC.buffer, frame := p, parents := rest }) := by
  unfold dmExit
  rw [hp]
  dsimp only
  split
  · refine ⟨⟨rfl, rfl, rfl, rfl, rfl, rfl⟩, ?_, ?_⟩
    · intro dm1 h
      cases h
      rfl
    · intro e2 dm1 h
      cases h
  · refine ⟨⟨rfl, rfl, rfl, rfl, rfl, rfl⟩, ?_, ?_⟩
    · intro dm1 h
      cases h
    · intro e2 dm1 h
      cases h
      exact ⟨rfl, rfl⟩

/-- Inversion of a successful `update_ext`. -/
theorem updateExt_ok_inv {α : Type} (maps newMaps : CtxMaps α)
    (h : updateExt maps = .ok newMaps) :
    ∃ l0 l1 rest, maps = l0 :: l1 :: rest ∧
      newMaps = [] :: dictUpdate l1 l0 :: rest := by
  match maps with
  | [] => cases h
  | [m] => cases h
  | l0 :: l1 :: rest =>
    cases h
    exact ⟨l0, l1, rest, rfl, rfl⟩

/-- The engine's global invariants, by mutual induction over the
interpreter: every evaluation step preserves the current manager's ancestor
chain and its frame fields other than the cursor and the `has_child` guard,
writes only into the top layer of the head context, and a `Section` result
chains onto the head of its output stack. -/
theorem enginePres :
    (∀ p dm ctxs, resPres (fpRead p dm ctxs) dm ctxs ∧
      fpReadCtxShape p dm ctxs) ∧
    (∀ l dm ctxs, resPres (runElems l dm ctxs) dm ctxs) ∧
    (∀ p dm ctxs, resPres (gotoAddrAndRead p dm ctxs) dm ctxs) := by
  apply fpRead.mutual_induct
  case case1 =>
    intro label address n dm ctxs e dm1 hread
    have h1 := dmRead_pres dm (some (n : Int))
    rw [hread] at h1
    refine ⟨⟨?_, ?_⟩, ?_⟩
    · simp only [fpRead, hread]
      exact h1
    · simp only [fpRead, hread]
      exact ctxPres_refl ctxs
    · intro M dm2 c2 h
      simp only [fpRead, hread] at h
      cases h
  case case2 =>
    intro label address n dm ctxs bs dm1 hread
    have h1 := dmRead_pres dm (some (n : Int))
    rw [hread] at h1
    refine ⟨⟨?_, ?_⟩, ?_⟩
    · simp only [fpRead, hread]
      exact h1
    · simp only [fpRead, hread]
      exact ctxPres_refl ctxs
    · intro M dm2 c2 h
      simp only [fpRead, hread] at h
      cases h
  case case3 =>
    intro label address dm ctxs
    refine ⟨⟨?_, ?_⟩, ?_⟩
    · simp only [fpRead]
      exact dmPres_refl dm
    · simp only [fpRead]
      exact ctxPres_refl ctxs
    · intro M dm2 c2 h
      simp only [fpRead] at h
      cases h
  case case4 =>
    intro label address rel at2 elems dm ctxs e snd hmc
    have hsnd : dmPres snd dm := by
      unfold makeChild at hmc
      split at hmc
      · cases hmc; exact dmPres_refl dm
      · rename_i u hguard
        dsimp only at hmc
        repeat' split at hmc
        all_goals cases hmc <;> exact ⟨rfl, rfl, rfl, rfl, rfl, rfl⟩
    refine ⟨⟨?_, ?_⟩, ?_⟩
    · simp only [fpRead, hmc]
      exact hsnd
    · simp only [fpRead, hmc]
      exact ctxPres_refl ctxs
    · intro M dm2 c2 h
      simp only [fpRead, hmc] at h
      cases h
  case case5 =>
    intro label address rel at2 elems dm ctxs a hmc
    dsimp only
    intro child1 ctxs2 hrun e dm1 hexit ih
    obtain ⟨hguard, hbuf, hpar, hrev, hws, hhc, hcur⟩ :=
      makeChild_ok_inv dm rel at2 false a hmc
    rw [hrun] at ih
    dsimp only [resPres, EngineRes.stateOf, EngineRes.ctxsOf] at ih
    obtain ⟨hdm, hctx⟩ := ih
    have hpar1 : child1.parents = { dm.frame with hasChild := true }
        :: dm.parents := by
      rw [hdm.1]
      simpa [dmEnter] using hpar
    have hsh := (dmExit_none_shape child1 { dm.frame with hasChild := true }
      dm.parents hpar1).1
    rw [hexit] at hsh
    dsimp only [DMResult.stateOf] at hsh
    refine ⟨⟨?_, ?_⟩, ?_⟩
    · simp only [fpRead, hmc, hrun, hexit]
      exact dmPres_trans hsh ⟨rfl, rfl, rfl, rfl, rfl, rfl⟩
    · have hc2 : ctxs2.tail = ctxs := by simpa using hctx.1
      simp only [fpRead, hmc, hrun, hexit]
      dsimp only [EngineRes.ctxsOf]
      rw [hc2]
      exact ctxPres_refl ctxs
    · intro M dm2 c2 h
      simp only [fpRead, hmc, hrun, hexit] at h
      cases h
  case case6 =>
    intro label address rel at2 elems dm ctxs a hmc
    dsimp only
    intro child1 ctxs2 hrun dm1 hexit ih
    obtain ⟨hguard, hbuf, hpar, hrev, hws, hhc, hcur⟩ :=
      makeChild_ok_inv dm rel at2 false a hmc
    rw [hrun] at ih
    dsimp only [resPres, EngineRes.stateOf, EngineRes.ctxsOf] at ih
    obtain ⟨hdm, hctx⟩ := ih
    have hpar1 : child1.parents = { dm.frame with hasChild := true }
        :: dm.parents := by
      rw [hdm.1]
      simpa [dmEnter] using hpar
    have hsh := (dmExit_none_shape child1 { dm.frame with hasChild := true }
      dm.parents hpar1).1
    rw [hexit] at hsh
    dsimp only [DMResult.stateOf] at hsh
    refine ⟨⟨?_, ?_⟩, ?_⟩
    · simp only [fpRead, hmc, hrun, hexit]
      exact dmPres_trans hsh ⟨rfl, rfl, rfl, rfl, rfl, rfl⟩
    · have hc2 : ctxs2.tail = ctxs := by simpa using hctx.1
      simp only [fpRead, hmc, hrun, hexit]
      dsimp only [EngineRes.ctxsOf]
      rw [hc2]
      exact ctxPres_refl ctxs
    · intro M dm2 c2 h
      simp only [fpRead, hmc, hrun, hexit] at h
      cases h
  case case7 =>
    intro label address rel at2 elems dm ctxs a hmc
    dsimp only
    intro e child1 ctxs2 hrun pdm hexit ih
    obtain ⟨hguard, hbuf, hpar, hrev, hws, hhc, hcur⟩ :=
      makeChild_ok_inv dm rel at2 false a hmc
    rw [hrun] at ih
    dsimp only [resPres, EngineRes.stateOf, EngineRes.ctxsOf] at ih
    obtain ⟨hdm, hctx⟩ := ih
    have hpar1 : child1.parents = { dm.frame with hasChild := true }
        :: dm.parents := by
      rw [hdm.1]
      simpa [dmEnter] using hpar
    have hpdm := (dmExit_some_inv child1 e
      { dm.frame with hasChild := true } dm.parents hpar1).2.1 pdm hexit
    refine ⟨⟨?_, ?_⟩, ?_⟩
    · simp only [fpRead, hmc, hrun, hexit]
      rw [hpdm]
      exact ⟨rfl, rfl, rfl, rfl, rfl, rfl⟩
    · have hc2 : ctxs2.tail = ctxs := by simpa using hctx.1
      simp only [fpRead, hmc, hrun, hexit]
      dsimp only [EngineRes.ctxsOf]
      rw [hc2]
      exact ctxPres_refl ctxs
    · intro M dm2 c2 h
      simp only [fpRead, hmc, hrun, hexit] at h
      cases h
  case case8 =>
    intro label address rel at2 elems dm ctxs a hmc
    dsimp only
    intro e child1 ctxs2 hrun e2 pdm hexit ih
    obtain ⟨hguard, hbuf, hpar, hrev, hws, hhc, hcur⟩ :=
      makeChild_ok_inv dm rel at2 false a hmc
    rw [hrun] at ih
    dsimp only [resPres, EngineRes.stateOf, EngineRes.ctxsOf] at ih
    obtain ⟨hdm, hctx⟩ := ih
    have hpar1 : child1.parents = { dm.frame with hasChild := true }
        :: dm.parents := by
      rw [hdm.1]
      simpa [dmEnter] using hpar
    have hpdm := ((dmExit_some_inv child1 e
      { dm.frame with hasChild := true } dm.parents hpar1).2.2 e2 pdm
        hexit).2
    refine ⟨⟨?_, ?_⟩, ?_⟩
    · simp only [fpRead, hmc, hrun, hexit]
      rw [hpdm]
      exact ⟨rfl, rfl, rfl, rfl, rfl, rfl⟩
    · have hc2 : ctxs2.tail = ctxs := by simpa using hctx.1
      simp only [fpRead, hmc, hrun, hexit]
      dsimp only [EngineRes.ctxsOf]
      rw [hc2]
      exact ctxPres_refl ctxs
    · intro M dm2 c2 h
      simp only [fpRead, hmc, hrun, hexit] at h
      cases h
  case case9 =>
    intro label address opt relative addrType elems dm
    refine ⟨⟨?_, ?_⟩, ?_⟩
    · simp only [fpRead]
      exact dmPres_refl dm
    · simp only [fpRead]
      exact ctxPres_refl []
    · intro M dm2 c2 h
      simp only [fpRead] at h
      cases h
  case case10 =>
    intro label address opt rel at2 elems dm c0 crest e snd hmc
    have hsnd : dmPres snd dm := by
      unfold makeChild at hmc
      split at hmc
      · cases hmc; exact dmPres_refl dm
      · rename_i u hguard
        dsimp only at hmc
        repeat' split at hmc
        all_goals cases hmc <;> exact ⟨rfl, rfl, rfl, rfl, rfl, rfl⟩
    refine ⟨⟨?_, ?_⟩, ?_⟩
    · simp only [fpRead, hmc]
      exact hsnd
    · simp only [fpRead, hmc]
      exact ctxPres_refl _
    · intro M dm2 c2 h
      simp only [fpRead, hmc] at h
      cases h
  case case11 =>
    intro label address opt rel at2 elems dm c0 crest a hmc
    dsimp only
    intro child1 ctxs2 hrun e dm1 hexit ih
    obtain ⟨hguard, hbuf, hpar, hrev, hws, hhc, hcur⟩ :=
      makeChild_ok_inv dm rel at2 opt a hmc
    rw [hrun] at ih
    dsimp only [resPres, EngineRes.stateOf, EngineRes.ctxsOf] at ih
    obtain ⟨hdm, hctx⟩ := ih
    have hpar1 : child1.parents = { dm.frame with hasChild := true }
        :: dm.parents := by
      rw [hdm.1]
      simpa [dmEnter] using hpar
    have hsh := (dmExit_none_shape child1 { dm.frame with hasChild := true }
      dm.parents hpar1).1
    rw [hexit] at hsh
    dsimp only [DMResult.stateOf] at hsh
    have htl : ctxs2.tail = crest := by simpa using hctx.1
    have hhd : (ctxs2.headD []).tail = c0 := by
      have := hctx.2
      simpa [ctxNewChild] using this
    refine ⟨⟨?_, ?_⟩, ?_⟩
    · simp only [fpRead, hmc, hrun, hexit]
      exact dmPres_trans hsh ⟨rfl, rfl, rfl, rfl, rfl, rfl⟩
    · simp only [fpRead, hmc, hrun, hexit]
      dsimp only [EngineRes.ctxsOf]
      rw [htl, hhd]
      exact ctxPres_refl _
    · intro M dm2 c2 h
      simp only [fpRead, hmc, hrun, hexit] at h
      cases h
  case case12 =>
    intro label address opt rel at2 elems dm c0 crest a hmc
    dsimp only
    intro child1 ctxs2 hrun dm1 hexit ih
    obtain ⟨hguard, hbuf, hpar, hrev, hws, hhc, hcur⟩ :=
      makeChild_ok_inv dm rel at2 opt a hmc
    rw [hrun] at ih
    dsimp only [resPres, EngineRes.stateOf, EngineRes.ctxsOf] at ih
    obtain ⟨hdm, hctx⟩ := ih
    have hpar1 : child1.parents = { dm.frame with hasChild := true }
        :: dm.parents := by
      rw [hdm.1]
      simpa [dmEnter] using hpar
    have hsh := (dmExit_none_shape child1 { dm.frame with hasChild := true }
      dm.parents hpar1).1
    rw [hexit] at hsh
    dsimp only [DMResult.stateOf] at hsh
    have htl : ctxs2.tail = crest := by simpa using hctx.1
    have hhd : (ctxs2.headD []).tail = c0 := by
      have := hctx.2
      simpa [ctxNewChild] using this
    refine ⟨⟨?_, ?_⟩, ?_⟩
    · simp only [fpRead, hmc, hrun, hexit]
      exact dmPres_trans hsh ⟨rfl, rfl, rfl, rfl, rfl, rfl⟩
    · simp only [fpRead, hmc, hrun, hexit]
      dsimp only [EngineRes.ctxsOf]
      rw [htl, hhd]
      exact ctxPres_refl _
    · intro M dm2 c2 h
      simp only [fpRead, hmc, hrun, hexit] at h
      cases h
      rfl
  case case13 =>
    intro label address opt rel at2 elems dm c0 crest a hmc
    dsimp only
    intro e child1 ctxs2 hrun pdm hexit ih
    obtain ⟨hguard, hbuf, hpar, hrev, hws, hhc, hcur⟩ :=
      makeChild_ok_inv dm rel at2 opt a hmc
    rw [hrun] at ih
    dsimp only [resPres, EngineRes.stateOf, EngineRes.ctxsOf] at ih
    obtain ⟨hdm, hctx⟩ := ih
    have hpar1 : child1.parents = { dm.frame with hasChild := true }
        :: dm.parents := by
      rw [hdm.1]
      simpa [dmEnter] using hpar
    have hpdm := (dmExit_some_inv child1 e
      { dm.frame with hasChild := true } dm.parents hpar1).2.1 pdm hexit
    have htl : ctxs2.tail = crest := by simpa using hctx.1
    have hhd : (ctxs2.headD []).tail = c0 := by
      have := hctx.2
      simpa [ctxNewChild] using this
    refine ⟨⟨?_, ?_⟩, ?_⟩
    · simp only [fpRead, hmc, hrun, hexit]
      rw [hpdm]
      exact ⟨rfl, rfl, rfl, rfl, rfl, rfl⟩
    · simp only [fpRead, hmc, hrun, hexit]
      dsimp only [EngineRes.ctxsOf]
      rw [htl, hhd]
      exact ctxPres_refl _
    · intro M dm2 c2 h
      simp only [fpRead, hmc, hrun, hexit] at h
      cases h
  case case14 =>
    intro label address opt rel at2 elems dm c0 crest a hmc
    dsimp only
    intro e child1 ctxs2 hrun e2 pdm hexit ih
    obtain ⟨hguard, hbuf, hpar, hrev, hws, hhc, hcur⟩ :=
      makeChild_ok_inv dm rel at2 opt a hmc
    rw [hrun] at ih
    dsimp only [resPres, EngineRes.stateOf, EngineRes.ctxsOf] at ih
    obtain ⟨hdm, hctx⟩ := ih
    have hpar1 : child1.parents = { dm.frame with hasChild := true }
        :: dm.parents := by
      rw [hdm.1]
      simpa [dmEnter] using hpar
    have hpdm := ((dmExit_some_inv child1 e
      { dm.frame with hasChild := true } dm.parents hpar1).2.2 e2 pdm
        hexit).2
    have htl : ctxs2.tail = crest := by simpa using hctx.1
    have hhd : (ctxs2.headD []).tail = c0 := by
      have := hctx.2
      simpa [ctxNewChild] using this
    refine ⟨⟨?_, ?_⟩, ?_⟩
    · simp only [fpRead, hmc, hrun, hexit]
      rw [hpdm]
      exact ⟨rfl, rfl, rfl, rfl, rfl, rfl⟩
    · simp only [fpRead, hmc, hrun, hexit]
      dsimp only [EngineRes.ctxsOf]
      rw [htl, hhd]
      exact ctxPres_refl _
    · intro M dm2 c2 h
      simp only [fpRead, hmc, hrun, hexit] at h
      cases h
  case case15 =>
    intro dm ctxs
    constructor
    · simp only [runElems]
      exact dmPres_refl dm
    · simp only [runElems]
      exact ctxPres_refl ctxs
  case case16 =>
    intro p rest dm ctxs e dm1 ctxs1 hgoto ih
    rw [hgoto] at ih
    dsimp only [resPres, EngineRes.stateOf, EngineRes.ctxsOf] at ih
    constructor
    · simp only [runElems, hgoto]
      exact ih.1
    · simp only [runElems, hgoto]
      exact ih.2
  case case17 =>
    intro p rest dm ctxs out dm1 ctxs1 hgoto ih1 ih2
    rw [hgoto] at ih1
    dsimp only [resPres, EngineRes.stateOf, EngineRes.ctxsOf] at ih1
    constructor
    · simp only [runElems, hgoto]
      exact dmPres_trans ih2.1 ih1.1
    · simp only [runElems, hgoto]
      exact ctxPres_trans ih2.2 ih1.2
  case case18 =>
    intro p dm ctxs e dm1 ctxs1 hsp
    have hspres : dmPres dm1 dm ∧ ctxPres ctxs1 ctxs := by
      cases hpa : p.address with
      | none =>
        rw [hpa] at hsp
        dsimp only at hsp
        cases hsp <;> exact ⟨dmPres_refl _, ctxPres_refl _⟩
      | some a =>
        rw [hpa] at hsp
        dsimp only at hsp
        have h2 := spacer_pres dm ctxs a
        rw [hsp] at h2
        exact h2
    constructor
    · simp only [gotoAddrAndRead, hsp]
      exact hspres.1
    · simp only [gotoAddrAndRead, hsp]
      exact hspres.2
  case case19 =>
    intro p dm ctxs dm1 ctxs1 hsp e haddr
    have hspres : dmPres dm1 dm ∧ ctxPres ctxs1 ctxs := by
      cases hpa : p.address with
      | none =>
        rw [hpa] at hsp
        dsimp only at hsp
        cases hsp <;> exact ⟨dmPres_refl _, ctxPres_refl _⟩
      | some a =>
        rw [hpa] at hsp
        dsimp only at hsp
        have h2 := spacer_pres dm ctxs a
        rw [hsp] at h2
        exact h2
    constructor
    · simp only [gotoAddrAndRead, hsp, haddr]
      exact hspres.1
    · simp only [gotoAddrAndRead, hsp, haddr]
      exact hspres.2
  case case20 =>
    intro p dm ctxs dm1 ctxs1 hsp startAddr haddr e dm2 ctxs2 hread ih
    have hspres : dmPres dm1 dm ∧ ctxPres ctxs1 ctxs := by
      cases hpa : p.address with
      | none =>
        rw [hpa] at hsp
        dsimp only at hsp
        cases hsp <;> exact ⟨dmPres_refl _, ctxPres_refl _⟩
      | some a =>
        rw [hpa] at hsp
        dsimp only at hsp
        have h2 := spacer_pres dm ctxs a
        rw [hsp] at h2
        exact h2
    have ih1 := ih.1
    rw [hread] at ih1
    dsimp only [resPres, EngineRes.stateOf, EngineRes.ctxsOf] at ih1
    constructor
    · simp only [gotoAddrAndRead, hsp, haddr, hread]
      exact dmPres_trans ih1.1 hspres.1
    · simp only [gotoAddrAndRead, hsp, haddr, hread]
      exact ctxPres_trans ih1.2 hspres.2
  case case21 =>
    intro p dm ctxs dm1 ctxs1 hsp startAddr haddr dm2 ctxs2 hread ih
    have hspres : dmPres dm1 dm ∧ ctxPres ctxs1 ctxs := by
      cases hpa : p.address with
      | none =>
        rw [hpa] at hsp
        dsimp only at hsp
        cases hsp <;> exact ⟨dmPres_refl _, ctxPres_refl _⟩
      | some a =>
        rw [hpa] at hsp
        dsimp only at hsp
        have h2 := spacer_pres dm ctxs a
        rw [hsp] at h2
        exact h2
    have ih1 := ih.1
    rw [hread] at ih1
    dsimp only [resPres, EngineRes.stateOf, EngineRes.ctxsOf] at ih1
    constructor
    · simp only [gotoAddrAndRead, hsp, haddr, hread]
      exact dmPres_trans ih1.1 hspres.1
    · simp only [gotoAddrAndRead, hsp, haddr, hread]
      exact ctxPres_trans ih1.2 hspres.2
  case case22 =>
    intro p dm ctxs dm1 ctxs1 hsp startAddr haddr dm2 ctxs2 maps e hupd
      hread ih
    have hspres : dmPres dm1 dm ∧ ctxPres ctxs1 ctxs := by
      cases hpa : p.address with
      | none =>
        rw [hpa] at hsp
        dsimp only at hsp
        cases hsp <;> exact ⟨dmPres_refl _, ctxPres_refl _⟩
      | some a =>
        rw [hpa] at hsp
        dsimp only at hsp
        have h2 := spacer_pres dm ctxs a
        rw [hsp] at h2
        exact h2
    have ih1 := ih.1
    rw [hread] at ih1
    dsimp only [resPres, EngineRes.stateOf, EngineRes.ctxsOf] at ih1
    constructor
    · simp only [gotoAddrAndRead, hsp, haddr, hread, hupd]
      exact dmPres_trans ih1.1 hspres.1
    · simp only [gotoAddrAndRead, hsp, haddr, hread, hupd]
      exact ctxPres_trans ih1.2 hspres.2
  case case23 =>
    intro p dm ctxs dm1 ctxs1 hsp startAddr haddr dm2 ctxs2 maps newMaps
      hupd hread ih
    have hspres : dmPres dm1 dm ∧ ctxPres ctxs1 ctxs := by
      cases hpa : p.address with
      | none =>
        rw [hpa] at hsp
        dsimp only at hsp
        cases hsp <;> exact ⟨dmPres_refl _, ctxPres_refl _⟩
      | some a =>
        rw [hpa] at hsp
        dsimp only at hsp
        have h2 := spacer_pres dm ctxs a
        rw [hsp] at h2
        exact h2
    have ih1 := ih.1
    rw [hread] at ih1
    dsimp only [resPres, EngineRes.stateOf, EngineRes.ctxsOf] at ih1
    have hshape := ih.2 maps dm2 ctxs2 hread
    obtain ⟨l0, l1, rest, hmaps, hnew⟩ :=
      updateExt_ok_inv maps newMaps hupd
    have hrest : (ctxs2.headD []).tail = rest := by
      rw [hshape, hmaps]
      rfl
    constructor
    · simp only [gotoAddrAndRead, hsp, haddr, hread, hupd]
      exact dmPres_trans ih1.1 hspres.1
    · simp only [gotoAddrAndRead, hsp, haddr, hread, hupd]
      dsimp only [EngineRes.ctxsOf]
      constructor
      · simp only [List.tail_cons]
        exact (ih1.2.1).trans hspres.2.1
      · simp only [List.headD_cons]
        rw [hnew]
        simp only [List.tail_cons]
        rw [← hrest]
        exact (ih1.2.2).trans hspres.2.2
  case case24 =>
    intro p dm ctxs dm1 ctxs1 hsp startAddr haddr dm2 ctxs2 hread ih
    have hspres : dmPres dm1 dm ∧ ctxPres ctxs1 ctxs := by
      cases hpa : p.address with
      | none =>
        rw [hpa] at hsp
        dsimp only at hsp
        cases hsp <;> exact ⟨dmPres_refl _, ctxPres_refl _⟩
      | some a =>
        rw [hpa] at hsp
        dsimp only at hsp
        have h2 := spacer_pres dm ctxs a
        rw [hsp] at h2
        exact h2
    have ih1 := ih.1
    rw [hread] at ih1
    dsimp only [resPres, EngineRes.stateOf, EngineRes.ctxsOf] at ih1
    constructor
    · simp only [gotoAddrAndRead, hsp, haddr, hread]
      exact dmPres_trans ih1.1 hspres.1
    · simp only [gotoAddrAndRead, hsp, haddr, hread]
      exact ctxPres_trans ih1.2 hspres.2
  case case25 =>
    intro p dm ctxs dm1 ctxs1 hsp startAddr haddr dm2 ctxs2 v hread ih
    have hspres : dmPres dm1 dm ∧ ctxPres ctxs1 ctxs := by
      cases hpa : p.address with
      | none =>
        rw [hpa] at hsp
        dsimp only at hsp
        cases hsp <;> exact ⟨dmPres_refl _, ctxPres_refl _⟩
      | some a =>
        rw [hpa] at hsp
        dsimp only at hsp
        have h2 := spacer_pres dm ctxs a
        rw [hsp] at h2
        exact h2
    have ih1 := ih.1
    rw [hread] at ih1
    dsimp only [resPres, EngineRes.stateOf, EngineRes.ctxsOf] at ih1
    constructor
    · simp only [gotoAddrAndRead, hsp, haddr, hread]
      exact dmPres_trans ih1.1 hspres.1
    · simp only [gotoAddrAndRead, hsp, haddr, hread]
      dsimp only [EngineRes.ctxsOf]
      constructor
      · simp only [List.tail_cons]
        exact (ih1.2.1).trans hspres.2.1
      · simp only [List.headD_cons]
        rw [ctxSetItem_tail]
        exact (ih1.2.2).trans hspres.2.2
  case case26 =>
    intro p dm ctxs dm1 ctxs1 hsp startAddr haddr dm2 ctxs2 d hread ih
    have hspres : dmPres dm1 dm ∧ ctxPres ctxs1 ctxs := by
      cases hpa : p.address with
      | none =>
        rw [hpa] at hsp
        dsimp only at hsp
        cases hsp <;> exact ⟨dmPres_refl _, ctxPres_refl _⟩
      | some a =>
        rw [hpa] at hsp
        dsimp only at hsp
        have h2 := spacer_pres dm ctxs a
        rw [hsp] at h2
        exact h2
    have ih1 := ih.1
    rw [hread] at ih1
    dsimp only [resPres, EngineRes.stateOf, EngineRes.ctxsOf] at ih1
    constructor
    · simp only [gotoAddrAndRead, hsp, haddr, hread]
      exact dmPres_trans ih1.1 hspres.1
    · simp only [gotoAddrAndRead, hsp, haddr, hread]
      dsimp only [EngineRes.ctxsOf]
      constructor
      · simp only [List.tail_cons]
        exact (ih1.2.1).trans hspres.2.1
      · simp only [List.headD_cons]
        rw [ctxSetItem_tail]
        exact (ih1.2.2).trans hspres.2.2

/-- C1: a `Section` with `optional=True` whose body raises a recoverable
failure (`FBError`) is reverted entirely: `goto_addr_and_read` returns
`Reverted` (so the enclosing loop continues with the next element), the
enclosing manager keeps its exact pre-entry frame — in particular its
cursor — and the enclosing context stack is exactly the one from before the
section was entered. -/
theorem c1_optional_section_revert (lbl : Option String) (rel : Bool)
    (at2 : AddrType) (elems : List FP) (dm child : DataManager)
    (c0 : CtxMaps Value) (crest : List (CtxMaps Value)) (e : Err)
    (dmF : DataManager) (ctxsF : List (CtxMaps Value))
    (hchild : makeChild dm rel at2 true = .ok child)
    (hrun : runElems elems (dmEnter child) (ctxNewChild c0 :: crest)
      = .exc e dmF ctxsF)
    (hfb : e.isFB = true) :
    gotoAddrAndRead (FP.sectionP lbl none true rel at2 elems) dm
        (c0 :: crest)
      = .ok .reverted { dm with buffer := dmF.buffer } (c0 :: crest) ∧
    (∀ rest, runElems (FP.sectionP lbl none true rel at2 elems :: rest) dm
        (c0 :: crest)
      = runElems rest { dm with buffer := dmF.buffer } (c0 :: crest)) := by
  obtain ⟨hguard, hbuf, hpar, hrev, hws, hhc, hcur⟩ :=
    makeChild_ok_inv dm rel at2 true child hchild
  have hinv := (enginePres.2.1) elems (dmEnter child)
    (ctxNewChild c0 :: crest)
  rw [hrun] at hinv
  dsimp only [resPres, EngineRes.stateOf, EngineRes.ctxsOf] at hinv
  obtain ⟨hdm, hctx⟩ := hinv
  have htl : ctxsF.tail = crest := by simpa using hctx.1
  have hhd : (ctxsF.headD []).tail = c0 := by
    have := hctx.2
    simpa [ctxNewChild] using this
  have hparF : dmF.parents = { dm.frame with hasChild := true }
      :: dm.parents := by
    rw [hdm.1]
    simpa [dmEnter] using hpar
  have hrevF : dmF.frame.revertible = true := by
    rw [hdm.2.1]
    simpa [dmEnter] using hrev
  have hhc0 : dm.frame.hasChild = false := by
    unfold failIfUnsafe at hguard
    split at hguard
    · cases hguard
    · split at hguard
      · cases hguard
      · rename_i h1 h2
        simpa using h1
  have hframe : { dm.frame with hasChild := false } = dm.frame := by
    cases hf : dm.frame
    rw [hf] at hhc0
    simp at hhc0
    simp [hhc0]
  have hexit : dmExit dmF (some e)
      = .ok () { buffer := dmF.buffer
                 frame := { dm.frame with hasChild := false }
                 parents := dm.parents } := by
    unfold dmExit
    dsimp only
    rw [hparF]
    simp only [hfb, hrevF, Bool.and_self, if_true]
  have hread : fpRead (FP.sectionP lbl none true rel at2 elems) dm
      (c0 :: crest)
      = .ok .reverted { dm with buffer := dmF.buffer } (c0 :: crest) := by
    simp only [fpRead, hchild, hrun, hexit]
    rw [htl, hhd, hframe]
  have haddr : dmAddress dm
      = .ok (if dm.frame.addrType = .BYTE then
          (dm.frame.cursor - dm.frame.base) / 8
        else dm.frame.cursor - dm.frame.base) := by
    unfold dmAddress
    rw [hguard]
    dsimp only
    split <;> rfl
  have hgoto : gotoAddrAndRead (FP.sectionP lbl none true rel at2 elems) dm
      (c0 :: crest)
      = .ok .reverted { dm with buffer := dmF.buffer } (c0 :: crest) := by
    simp only [gotoAddrAndRead, FP.address, haddr, hread]
  refine ⟨hgoto, fun rest => ?_⟩
  simp only [runElems, hgoto]

/-- C1 witness: an `Optional(Failure())` over a concrete manager reverts:
the cursor and context stack come back unchanged and the enclosing loop
moves on. -/
theorem c1_optional_section_revert_witness :
    (gotoAddrAndRead (FP.sectionP none none true true .PARENT
        [FP.failureLeaf none none]) c1Dm ([[]] :: [])
      = .ok .reverted { c1Dm with buffer := (dmEnter c1Child).buffer }
        ([[]] :: [])) ∧
    (∀ rest, runElems (FP.sectionP none none true true .PARENT
        [FP.failureLeaf none none] :: rest) c1Dm ([[]] :: [])
      = runElems rest { c1Dm with buffer := (dmEnter c1Child).buffer }
        ([[]] :: [])) :=
  c1_optional_section_revert none true .PARENT [FP.failureLeaf none none]
    c1Dm c1Child [[]] [] .fbError (dmEnter c1Child)
    (ctxNewChild [[]] :: []) (by decide)
    (by simp only [runElems, gotoAddrAndRead, fpRead, FP.address]
        rfl)
    (by decide)

/-- C3: evaluating the `Repeat`/`Array` quantity handling at the failing
input: a string key is rejected with `TypeError` already at construction,
and even the `read`-time dispatch raises `ValueError` for any string
quantity (while an integer quantity resolves fine). -/
theorem c3_string_qty_eval :
    repeatInit (.str "count") = .error .typeError ∧
    arrayInit (.str "count") = .error .typeError ∧
    resolveReps (α := Value) [[[("count", .bytesV [5])]]] (.str "count")
      = .error .valueError ∧
    resolveReps (α := Value) [] (.int 5) = .ok 5 ∧
    repeatInit (.int 5) = .ok (.int 5) := by
  refine ⟨rfl, rfl, rfl, rfl, rfl⟩

set_option maxRecDepth 40000 in
/-- C7 counterexample: `DATA_BUFFER_SIZE = 8192` is a count of bits, so the
smallest bounded fill requests `uptobyte (max 8192 r)` = 1024 bytes — not
at least 8192 bytes as the claim states.  Concretely, a fill of 1 bit from
a 1500-byte stream reads 1024 bytes and appends that single chunk. -/
theorem c7_counterexample :
    DATA_BUFFER_SIZE = 8192 ∧
    uptobyte (max DATA_BUFFER_SIZE 1) = 1024 ∧
    ¬ 8192 ≤ uptobyte (max DATA_BUFFER_SIZE 1) ∧
    loadFromStream
      { bounds := [0], buffers := [], streamEof := false
        stream := List.replicate 1500 7 } (some 1)
      = .ok 8192
        { bounds := [0, 8192], buffers := [List.replicate 1024 7]
          streamEof := false, stream := List.replicate 476 7 } := by
  refine ⟨rfl, rfl, by decide, ?_⟩
  rfl

/-- C7 (amended): `DATA_BUFFER_SIZE = 8192` counts bits (1 KiB of bytes):
each bounded stream fill requests `ceil(max(DATA_BUFFER_SIZE, r) / 8)`
bytes — hence at least 1024 bytes — appends exactly one chunk when the
stream returns data (none when it returns nothing), and marks EOF exactly
when the stream returned fewer bytes than requested. -/
theorem c7_amended (db : DataBuffer) (r : Nat)
    (hno : db.streamEof = false) :
    1024 ≤ uptobyte (max DATA_BUFFER_SIZE r) ∧
    (db.stream.take (uptobyte (max DATA_BUFFER_SIZE r)) ≠ [] →
      loadFromStream db (some r)
        = .ok (bitlen (db.stream.take (uptobyte (max DATA_BUFFER_SIZE r))))
          { bounds := db.bounds ++
              [db.upperBound +
                bitlen (db.stream.take (uptobyte (max DATA_BUFFER_SIZE r)))]
            buffers := db.buffers ++
              [db.stream.take (uptobyte (max DATA_BUFFER_SIZE r))]
            streamEof := decide
              (bitlen (db.stream.take (uptobyte (max DATA_BUFFER_SIZE r))) <
                uptobyte (max DATA_BUFFER_SIZE r) * 8)
            stream := db.stream.drop (uptobyte (max DATA_BUFFER_SIZE r)) }) ∧
    (db.stream.take (uptobyte (max DATA_BUFFER_SIZE r)) = [] →
      loadFromStream db (some r)
        = .ok 0 { db with streamEof := true
                          stream := db.stream.drop
                            (uptobyte (max DATA_BUFFER_SIZE r)) }) := by
  refine ⟨?_, ?_, ?_⟩
  · have h1 : 8192 ≤ max DATA_BUFFER_SIZE r := le_max_left _ _
    unfold uptobyte
    omega
  · intro hne
    unfold loadFromStream
    rw [hno]
    dsimp only
    have hcond :
        ¬ (bitlen (db.stream.take (uptobyte (max DATA_BUFFER_SIZE r)))
          = 0) := by
      unfold bitlen
      intro h
      apply hne
      exact List.length_eq_zero.mp (by omega)
    rw [if_neg hcond]
    rfl
  · intro hemp
    unfold loadFromStream
    rw [hno]
    dsimp only
    rw [hemp]
    have hreq : 0 < uptobyte (max DATA_BUFFER_SIZE r) * 8 := by
      have h1 : 8192 ≤ max DATA_BUFFER_SIZE r := le_max_left _ _
      unfold uptobyte
      omega
    simp [bitlen, decide_eq_true hreq]
    have h1 : 8192 ≤ max DATA_BUFFER_SIZE r := le_max_left _ _
    unfold uptobyte
    omega

/-- C7 witness: the amended fill policy applied to a concrete 1-bit request
on a live stream. -/
theorem c7_amended_witness : 1024 ≤ uptobyte (max DATA_BUFFER_SIZE 1) :=
  (c7_amended c7Db 1 rfl).1

/-- The guard rejects a manager with a live child or outside its `with`
scope. -/
theorem failIfUnsafe_unsafe (dm : DataManager)
    (h : dm.frame.hasChild = true ∨ dm.frame.withSafe = false) :
    failIfUnsafe dm = .error .runtimeError := by
  unfold failIfUnsafe
  rcases h with h | h
  · rw [if_pos h]
  · by_cases h2 : dm.frame.hasChild
    · rw [if_pos h2]
    · rw [if_neg h2, if_pos (by simp [h])]

/-- Trimming succeeds on a safe manager whose buffer satisfies the trim
preconditions. -/
theorem dmTrim_ok (dm : DataManager) (hws : dm.frame.withSafe = true)
    (hhc : dm.frame.hasChild = false)
    (hbuf : dm.frame.trimSafe = true →
      dm.frame.cursor ≤ dm.buffer.upperBound ∧
      dm.buffer.bounds.length > 1) :
    ∃ dm2, dmTrim dm = .ok () dm2 ∧ dm2.frame = dm.frame := by
  have hg : failIfUnsafe dm = .ok () := by
    unfold failIfUnsafe
    rw [if_neg (by simp [hhc]), if_neg (by simp [hws])]
  unfold dmTrim
  rw [hg]
  dsimp only
  by_cases htr : dm.frame.trimSafe = true
  · rw [if_pos htr]
    obtain ⟨h1, h2⟩ := hbuf htr
    unfold DataBuffer.trim
    rw [if_neg (by simpa using h1), if_neg (by simpa using h2)]
    exact ⟨_, rfl, rfl⟩
  · rw [if_neg htr]
    exact ⟨dm, rfl, rfl⟩

/-- C8: every public operation (`read`, `read_bits`, `read_bytes`,
`address`, `make_child`) raises the state error (`RuntimeError`) when the
manager has a live child or is outside its entered `with` scope; and after
a child scope exits — normally or by a suppressed revert — the parent's
guard is cleared and the parent passes `_fail_if_unsafe` again. -/
theorem c8_guard :
    (∀ (dm : DataManager) (l : Option Int),
      (dm.frame.hasChild = true ∨ dm.frame.withSafe = false) →
      dmRead dm l = .exc .runtimeError dm ∧
      readBits dm l = .exc .runtimeError dm ∧
      readBytes dm l = .exc .runtimeError dm ∧
      dmAddress dm = .error .runtimeError ∧
      (∀ rel at2 rev, makeChild dm rel at2 rev
        = .error (.runtimeError, dm))) ∧
    (∀ (dm : DataManager) (e : Err) (p : Frame) (rest : List Frame),
      dm.parents = p :: rest → p.withSafe = true → e.isFB = true →
      dm.frame.revertible = true →
      ∃ pdm, dmExit dm (some e) = .ok () pdm ∧
        pdm.frame.hasChild = false ∧ pdm.frame.withSafe = true ∧
        failIfUnsafe pdm = .ok ()) ∧
    (∀ (dm : DataManager) (p : Frame) (rest : List Frame),
      dm.parents = p :: rest → p.withSafe = true →
      (p.addrType = .BYTE → (dm.frame.cursor - dm.frame.base) % 8 = 0) →
      (p.trimSafe = true → dm.frame.cursor ≤ dm.buffer.upperBound ∧
        dm.buffer.bounds.length > 1) →
      ∃ pdm, dmExit dm none = .ok () pdm ∧
        pdm.frame.hasChild = false ∧ pdm.frame.withSafe = true ∧
        failIfUnsafe pdm = .ok ()) := by
  refine ⟨?_, ?_, ?_⟩
  · intro dm l h
    have hg := failIfUnsafe_unsafe dm h
    refine ⟨?_, ?_, ?_, ?_, ?_⟩
    · unfold dmRead
      rw [hg]
    · unfold readBits
      rw [hg]
    · unfold readBytes
      rw [hg]
    · unfold dmAddress
      rw [hg]
    · intro rel at2 rev
      unfold makeChild
      rw [hg]
  · intro dm e p rest hp hpw hfb hrev
    have hx : dmExit dm (some e)
        = .ok () { buffer := dm.buffer
                   frame := { p with hasChild := false }
                   parents := rest } := by
      unfold dmExit
      dsimp only
      rw [hp]
      simp only [hfb, hrev, Bool.and_self, if_true]
    refine ⟨_, hx, rfl, by simpa using hpw, ?_⟩
    unfold failIfUnsafe
    rw [if_neg (by simp), if_neg (by simp [hpw])]
  · intro dm p rest hp hpw halign hbuf
    unfold dmExit
    dsimp only
    rw [hp]
    have hcond : (p.addrType = AddrType.BYTE &&
        decide ((dm.frame.cursor - dm.frame.base) % 8 ≠ 0)) = false := by
      by_cases hb : p.addrType = AddrType.BYTE
      · simp [hb, halign hb]
      · simp [hb]
    dsimp only
    rw [hcond]
    simp only [Bool.false_eq_true, if_false]
    obtain ⟨dm2, hdt, hfr⟩ := dmTrim_ok
      { buffer := dm.buffer
        frame := { p with cursor := dm.frame.cursor, hasChild := false }
        parents := rest } (by simpa using hpw) rfl
      (fun ht => hbuf (by simpa using ht))
    rw [hdt]
    refine ⟨dm2, rfl, ?_, ?_, ?_⟩
    · rw [hfr]
    · rw [hfr]
      simpa using hpw
    · unfold failIfUnsafe
      rw [hfr]
      rw [if_neg (by simp), if_neg (by simp [hpw])]

/-- C8 witness: the guard and the exit behaviour on concrete managers: an
un-entered root rejects `read`, and a suppressed revert on a concrete
revertible child hands a usable parent back. -/
theorem c8_guard_witness :
    dmRead (exceptOkOr (dataManagerOfBytes [0x01])) none
      = .exc .runtimeError (exceptOkOr (dataManagerOfBytes [0x01])) ∧
    (∃ pdm, dmExit (dmEnter c1Child) (some .fbError) = .ok () pdm ∧
      pdm.frame.hasChild = false ∧ pdm.frame.withSafe = true ∧
      failIfUnsafe pdm = .ok ()) :=
  ⟨(c8_guard.1 (exceptOkOr (dataManagerOfBytes [0x01])) none
      (Or.inr rfl)).1,
    c8_guard.2.1 (dmEnter c1Child) .fbError
      { c1Dm.frame with hasChild := true } [] rfl rfl rfl rfl⟩

/-- C9: evaluating the reads at the failing input.  Zero-length reads
succeed, return empty results and leave the cursor unchanged (also at
EOF), as the claim says; but a `None` read with zero bits remaining —
an exhausted manager or an empty source — crashes on the
`assert stop > start` in `_concatenate_bits_in_range` (`AssertionError`)
instead of returning an empty result. -/
theorem c9_none_read_eval :
    readBits c9Mgr (some 0) = .ok (bwbOfBytes [] 0 0) c9Mgr ∧
    readBytes c9Mgr (some 0) = .ok [] c9Mgr ∧
    dmRead c9Mgr (some 0) = .ok [] c9Mgr ∧
    readBytes c9Empty (some 0) = .ok [] c9Empty ∧
    (readBytes (readBytes c9Mgr (some 1)).stateOf none).errOf
      = some .assertionError ∧
    (readBits c9Empty none).errOf = some .assertionError ∧
    (readBytes c9Empty none).errOf = some .assertionError ∧
    (dmRead c9Empty none).errOf = some .assertionError := by
  refine ⟨rfl, rfl, rfl, rfl, rfl, rfl, rfl, rfl⟩

/-- C6: evaluating `BYTE_STRICT` managers at the failing input.  The
entry-alignment check works as claimed (`FBError` on an unaligned cursor),
but an aligned `BYTE_STRICT` manager does not behave like `BYTE`:
`read(1)` consumes one bit (cursor 0 → 1, value from a single bit) instead
of one byte, and `address` exposes the raw bit offset.  The same manager
with `addrType` set to `BYTE` reads one byte (cursor 0 → 8). -/
theorem c6_byte_strict_eval :
    childErr (makeChild c6BitMgr true .BYTE_STRICT false)
      = some .fbError ∧
    dmRead c6Mgr (some 1)
      = .ok [0] { c6Mgr with frame := { c6Mgr.frame with cursor := 1 } } ∧
    dmAddress { c6Mgr with frame := { c6Mgr.frame with cursor := 1 } }
      = .ok 1 ∧
    dmRead { c6Mgr with frame := { c6Mgr.frame with addrType := .BYTE } }
        (some 1)
      = .ok [1] { c6Mgr with frame :=
          { c6Mgr.frame with addrType := .BYTE, cursor := 8 } } := by
  refine ⟨rfl, ?_, rfl, ?_⟩ <;> decide

/-- On a root byte buffer, concatenating the aligned bit range
`[8c, 8t)` yields the bit view over the byte slice `data[c:t]`. -/
theorem c5_concat (data : List Nat) (c t : Nat) (hct : c < t)
    (ht : t ≤ data.length) :
    concatenateBitsInRange (dataBufferOfBytes data) (8 * c) (8 * t)
      = .ok (bwbOfBytes (pySlice data c t) 0 (8 * t - 8 * c)) := by
  have h1 : 8 * c < 8 * t := by omega
  have h2 : ¬ (bitlen data ≤ 8 * c) := by unfold bitlen; omega
  have h3 : ¬ (bitlen data < 8 * t) := by unfold bitlen; omega
  have h4 : (0 : Nat) < 8 * t := by omega
  have h5 : (8 * t + 7) / 8 = t := by omega
  unfold concatenateBitsInRange dataBufferOfBytes bisectRight bisectLeft
  simp [List.countP_cons, h1, h2, h3, h4, downtobyte, uptobyte, h5]

/-- On a root byte-mode manager with the cursor at byte `c`, reading
`t - c > 0` bytes returns `data[c:t]` and moves the cursor to byte `t`. -/
theorem c5_read (data : List Nat) (c t : Nat) (hb : ∀ x ∈ data, x < 256)
    (hct : c < t) (ht : t ≤ data.length) :
    dmRead (c5Root data c) (some ((t : Int) - (c : Int)))
      = .ok (pySlice data c t) (c5Root data t) := by
  have hbl : ¬ ((t : Int) - c = 0) := by omega
  have hbl8 : ¬ (((t : Int) - c) * 8 = 0) := by omega
  have hble8 : ¬ (((t : Int) - c) * 8 < 0) := by omega
  have htoNat8 : (((t : Int) - c) * 8).toNat = 8 * t - 8 * c := by omega
  have hsum : 8 * c + (8 * t - 8 * c) = 8 * t := by omega
  have hub : ¬ (8 * t > bitlen data) := by unfold bitlen; omega
  have hub2 : ¬ (bitlen data < 8 * t) := by unfold bitlen; omega
  have hslice_len : (pySlice data c t).length = t - c := by
    simp [pySlice]; omega
  have hmem : ∀ b ∈ pySlice data c t, b < 256 := by
    intro b hbm
    unfold pySlice at hbm
    exact hb b (List.mem_of_mem_drop (List.mem_of_mem_take hbm))
  have htb : (bwbOfBytes (pySlice data c t) 0 (8 * t - 8 * c)).toBytes
      = pySlice data c t := by
    have hdiff : 8 * t - 8 * c = 8 * (t - c) := by omega
    rw [hdiff, toBytes_aligned (pySlice data c t) (t - c) (by omega)
      (by rw [hslice_len]) hmem]
    exact List.take_of_length_le (by rw [hslice_len])
  have hconcat : concatenateBitsInRange
      { bounds := [0, bitlen data], buffers := [data], streamEof := true,
        stream := [] } (8 * c) (8 * t)
      = .ok (bwbOfBytes (pySlice data c t) 0 (8 * t - 8 * c)) := by
    have h := c5_concat data c t hct ht
    simp only [dataBufferOfBytes] at h
    exact h
  simp only [dmRead, c5Root, failIfUnsafe, readBytes, readBits, getData,
    dmTrim, DataBuffer.trim, DataBuffer.lowerBound, DataBuffer.upperBound,
    dataBufferOfBytes]
  simp [hbl, hbl8, hble8, htoNat8, hsum, hub, hub2, hconcat, htb,
    List.getLastD, List.headD, trimLoop]

/-- The address of a root byte-mode manager with the cursor at byte `c` is
`c`. -/
theorem c5_addr (data : List Nat) (c : Nat) :
    dmAddress (c5Root data c) = .ok c := by
  simp [dmAddress, failIfUnsafe, c5Root]

/-- A negative-length read on a root byte-mode manager raises `IndexError`
and leaves the state unchanged. -/
theorem c5_read_neg (data : List Nat) (c t : Nat) (h : t < c) :
    dmRead (c5Root data c) (some ((t : Int) - (c : Int)))
      = .exc .indexError (c5Root data c) := by
  have hz : ¬ ((t : Int) - (c : Int) = 0) := by omega
  have hz8 : ¬ (((t : Int) - (c : Int)) * 8 = 0) := by omega
  have hneg8 : ((t : Int) - (c : Int)) * 8 < 0 := by omega
  simp only [dmRead, c5Root, failIfUnsafe, readBytes, readBits, getData,
    dataBufferOfBytes, DataBuffer.lowerBound]
  simp [hz, hz8, hneg8, List.headD]

/-- C5 counterexample: with the cursor at byte 2 and target address 1, the
spacer fails with `IndexError` — which is not a subclass of `FBError`, so it
is not the recoverable address-overrun error the claim describes, and an
enclosing optional (revertible) Section re-raises it instead of suppressing
it. -/
theorem c5_counterexample :
    spacer (c5Root [10, 11, 12, 13] 2) [[[]]] 1
      = .exc .indexError (c5Root [10, 11, 12, 13] 2) [[[]]] ∧
    Err.indexError.isFB = false ∧
    (gotoAddrAndRead c5OptSection (c5Root [10, 11, 12, 13] 2)
        [[[]]]).errOf = some .indexError := by
  refine ⟨rfl, rfl, ?_⟩
  simp only [c5OptSection, gotoAddrAndRead, fpRead, runElems, FP.address,
    spacer]
  rfl

/-- C5 (amended): on a root byte-mode manager with the cursor at byte `c`
and target `t ≤ len(data)`: `t = c` stores nothing and leaves the state
unchanged; `t = c + 1` stores `data[c:t]` under `"spacer_" ++ hex c`;
`t > c + 1` stores `data[c:t]` under `"spacer_" ++ hex c ++ "-" ++
hex (t-1)`, the cursor moving to byte `t`; but `t < c` raises `IndexError`,
a non-recoverable exception (not an `FBError`), so it is not suppressed by
optional scopes. -/
theorem c5_amended (data : List Nat) (c t : Nat) (c0 : CtxMaps Value)
    (crest : List (CtxMaps Value)) (hb : ∀ x ∈ data, x < 256)
    (ht : t ≤ data.length) :
    (t = c → spacer (c5Root data c) (c0 :: crest) t
        = .ok () (c5Root data c) (c0 :: crest)) ∧
    (t = c + 1 → spacer (c5Root data c) (c0 :: crest) t
        = .ok () (c5Root data t)
            (ctxSetItem c0 ("spacer_" ++ pyHex c)
              (.bytesV (pySlice data c t)) :: crest)) ∧
    (c + 1 < t → spacer (c5Root data c) (c0 :: crest) t
        = .ok () (c5Root data t)
            (ctxSetItem c0 ("spacer_" ++ pyHex c ++ "-" ++ pyHex (t - 1))
              (.bytesV (pySlice data c t)) :: crest)) ∧
    (t < c → spacer (c5Root data c) (c0 :: crest) t
        = .exc .indexError (c5Root data c) (c0 :: crest) ∧
      Err.indexError.isFB = false) := by
  refine ⟨?_, ?_, ?_, ?_⟩
  · rintro rfl
    simp [spacer, c5_addr]
  · rintro rfl
    rw [spacer, c5_addr data c]
    simp only [(by omega : ¬ (c + 1 = c))]
    rw [c5_read data c (c + 1) hb (by omega) ht]
    simp [(by push_cast; omega : ¬ ((((c + 1 : Nat)) : Int) - c > 1))]
  · intro hlt
    rw [spacer, c5_addr data c]
    simp only [(by omega : ¬ (t = c))]
    rw [c5_read data c t hb (by omega) ht]
    simp [(by push_cast; omega : (((t : Nat)) : Int) - c > 1)]
    intro h
    exact absurd h (by omega)
  · intro hlt
    refine ⟨?_, rfl⟩
    rw [spacer, c5_addr data c]
    dsimp only
    rw [if_neg (by omega : ¬ (t = c))]
    rw [c5_read_neg data c t hlt]

/-- C5 witness: the amended theorem evaluated at `data = [1,2,3,4]`,
`c = 1`, `t = 3`: two bytes are skipped and stored under
`"spacer_0x1-0x2"`. -/
theorem c5_amended_witness :
    spacer (c5Root [1, 2, 3, 4] 1) ([[]] :: []) 3
      = .ok () (c5Root [1, 2, 3, 4] 3)
          (ctxSetItem [[]] ("spacer_" ++ pyHex 1 ++ "-" ++ pyHex 2)
            (.bytesV (pySlice [1, 2, 3, 4] 1 3)) :: []) :=
  (c5_amended [1, 2, 3, 4] 1 3 [[]] [] (by decide) (by decide)).2.2.1
    (by decide)
